import Mathlib

/-!
# omlox-client-go: subscription multiplexer core

A shallow embedding of the Go sources `any_type.go`, `client.go` and
`client_subscription.go`.

Conventions of the embedding

* A Go `error` is an `Option String`: `none` is the nil error, `some msg` an
  error carrying the message `msg`.
* A Go slice is an `Option (List _)`: `none` is the nil slice, `some xs` a
  non-nil slice holding `xs`.
* A Go function `func(*S) error` is a function `S → S × Option String`: the
  state it leaves behind together with the error it returns.
* A Go channel is a `Chan`: the language's FIFO queue with its capacity and its
  closed flag; `none` is the nil channel.
* Library code outside the repository (`encoding/json`, `net/url`, `net/http`,
  `x/time/rate`) is taken as a parameter.
-/

namespace Omlox

/-- A Go `error` value: `none` is nil. -/
abbrev Error := Option String

/-- A byte string. -/
abbrev Bytes := List UInt8

/-- A Go slice: `none` is the nil slice. -/
abbrev Slice (α : Type) := Option (List α)

/-- The builtin `len` of a slice. -/
def Slice.len {α : Type} : Slice α → Nat
  | none => 0
  | some xs => xs.length

/-- The slice expression `s[0:0]`: nil stays nil, anything else becomes the
empty non-nil slice over the same array. -/
def Slice.resetLen {α : Type} : Slice α → Slice α
  | none => none
  | some _ => some []

/-- The builtin `append(s, data...)`: appending no element returns `s` itself
(so nil stays nil), appending to nil allocates. -/
def Slice.append {α : Type} (s : Slice α) (data : List α) : Slice α :=
  match data with
  | [] => s
  | d :: ds =>
    match s with
    | none => some (d :: ds)
    | some xs => some (xs ++ d :: ds)

/-! ## `any_type.go` -/

/-- The bytes of the JSON literal `null`. -/
def nullLiteral : Bytes := [110, 117, 108, 108]

/-- The type `json.RawMessage`, a byte slice. -/
abbrev RawMessage := Slice UInt8

/-- The library method `json.RawMessage.MarshalJSON` (value receiver). -/
def RawMessage.MarshalJSON (m : RawMessage) : Slice UInt8 × Error :=
  match m with
  | none => (some nullLiteral, none)
  | some bs => (some bs, none)

/-- The library method `(*json.RawMessage).UnmarshalJSON`; the receiver is a
pointer, `none` being the nil pointer. It returns the pointee afterwards and the
error. -/
def RawMessage.UnmarshalJSON (m : Option RawMessage) (data : Bytes) :
    Option RawMessage × Error :=
  match m with
  | none => (none, some "json.RawMessage: UnmarshalJSON on nil pointer")
  | some cur => (some (Slice.append (Slice.resetLen cur) data), none)

/-- The type `AnyType`, declared as `type AnyType json.RawMessage`. -/
abbrev AnyType := RawMessage

/-- The method `AnyType.MarshalJSON`. -/
def AnyType.MarshalJSON (a : AnyType) : Slice UInt8 × Error :=
  if a = none then
    (some nullLiteral, none)
  else
    RawMessage.MarshalJSON a

/-- The method `(*AnyType).UnmarshalJSON`. -/
def AnyType.UnmarshalJSON (a : Option AnyType) (data : Bytes) : Option AnyType × Error :=
  RawMessage.UnmarshalJSON a data

/-- Unmarshal `data` into the `AnyType` that `a` points to, then marshal the
pointee: the bytes and the two errors. -/
def AnyType.roundTrip (a : AnyType) (data : Bytes) : Slice UInt8 × Error × Error :=
  match AnyType.UnmarshalJSON (some a) data with
  | (some a', e) => ((AnyType.MarshalJSON a').1, e, (AnyType.MarshalJSON a').2)
  | (none, e) => (none, e, none)

/-! ## Go channels -/

/-- A channel that has been made: the values buffered in it (oldest first), its
capacity and whether it has been closed. A channel variable is an
`Option (Chan α)`, `none` being the nil channel. -/
structure Chan (α : Type) where
  buf : List α
  cap : Nat
  closed : Bool

/-- The outcome of a channel operation: it completes, it cannot proceed in the
present state (the goroutine stays parked), or it panics. -/
inductive ChanResult (β : Type) where
  | done (b : β)
  | blocked
  | panicked (msg : String)

/-- The builtin `make(chan α, cap)`. -/
def Chan.make {α : Type} (cap : Nat) : Chan α :=
  { buf := [], cap := cap, closed := false }

/-- The statement `ch <- v` completing through the buffer. -/
def chanSend {α : Type} (ch : Option (Chan α)) (v : α) : ChanResult (Chan α) :=
  match ch with
  | none => .blocked
  | some c =>
    if c.closed then .panicked "send on closed channel"
    else if c.buf.length < c.cap then .done { c with buf := c.buf ++ [v] }
    else .blocked

/-- The expression `v, ok := <-ch`: `some v` is a received value, `none` the
report that the channel is closed and drained. -/
def chanRecv {α : Type} (ch : Option (Chan α)) : ChanResult (Option α × Chan α) :=
  match ch with
  | none => .blocked
  | some c =>
    match c.buf with
    | v :: rest => .done (some v, { c with buf := rest })
    | [] => if c.closed then .done (none, c) else .blocked

/-- The builtin `close(ch)`. -/
def chanClose {α : Type} (ch : Option (Chan α)) : ChanResult (Chan α) :=
  match ch with
  | none => .panicked "close of nil channel"
  | some c =>
    if c.closed then .panicked "close of closed channel"
    else .done { c with closed := true }

/-- The statement `ch <- v` meeting a receiver that is already parked on the
channel: the value passes to it directly, whatever the capacity. A receiver can
only be parked on an open channel with nothing buffered. -/
def chanHandoff {α : Type} (ch : Option (Chan α)) : ChanResult Unit :=
  match ch with
  | none => .blocked
  | some c =>
    if c.closed then .panicked "send on closed channel"
    else if c.buf.isEmpty then .done ()
    else .blocked

/-! ## `client_subscription.go` -/

/-- The constant `receiveChanSize`. -/
def receiveChanSize : Nat := 256

/-- Modelled from the spec: the type `Topic` is declared outside the given
sources; the spec calls it an opaque identifier naming a class of events. -/
abbrev Topic := String

/-- Modelled from the spec: the type `Parameters` is declared outside the given
sources; the spec calls it an ordered mapping of filter keys to values. This is
the content of a map that has been made. -/
abbrev Parameters := List (String × String)

/-- Modelled from the spec: the type `Parameter` is declared outside the given
sources; `WithSubcriptionParams` calls it as `param(s.topic, s.params)` and
tests the error it returns. The map is passed by reference, so the function
yields the map it leaves behind together with its error. -/
abbrev Parameter := Topic → Parameters → Parameters × Error

/-- Modelled from the spec: the type `WrapperObject` is declared outside the
given sources; the spec's push envelope carries a subscription identifier and an
ordered sequence of raw payload fragments, which `ReceiveAs` ranges over as
`msg.Payload`. -/
structure WrapperObject where
  SubscriptionID : Int
  Payload : List Bytes

/-- The struct `Subcription`. -/
structure Subcription where
  sid : Int
  topic : Topic
  params : Option Parameters
  mch : Option (Chan WrapperObject)

/-- The type `SubcriptionOpt`, a `func(*Subcription) error` that may be nil. -/
abbrev SubcriptionOpt := Option (Subcription → Subcription × Error)

/-- The loop of `WithSubcriptionParams` over the parameters, on the map made
for them. -/
def WithSubcriptionParams.loop (topic : Topic) :
    List Parameter → Parameters → Parameters × Error
  | [], m => (m, none)
  | param :: rest, m =>
    match param topic m with
    | (m', some err) => (m', some err)
    | (m', none) => WithSubcriptionParams.loop topic rest m'

/-- The function `WithSubcriptionParams`. -/
def WithSubcriptionParams (params : List Parameter) : SubcriptionOpt :=
  some fun s =>
    let r := WithSubcriptionParams.loop s.topic params []
    ({ s with params := some r.1 }, r.2)

/-- The loop of `NewSubscription` over the options. -/
def NewSubscription.loop : List SubcriptionOpt → Subcription → Subcription × Error
  | [], sub => (sub, none)
  | opt :: rest, sub =>
    match opt with
    | none => NewSubscription.loop rest sub
    | some f =>
      match f sub with
      | (sub', some err) => (sub', some err)
      | (sub', none) => NewSubscription.loop rest sub'

/-- The function `NewSubscription`: the pointer it returns (`none` is nil) and
the error. -/
def NewSubscription (topic : Topic) (opts : List SubcriptionOpt) :
    Option Subcription × Error :=
  let sub : Subcription := { sid := 0, topic := topic, params := none, mch := none }
  match NewSubscription.loop opts sub with
  | (_, some err) => (none, some err)
  | (sub', none) => (some sub', none)

/-- The method `Subcription.ReceiveRaw`. -/
def Subcription.ReceiveRaw (s : Subcription) : Option (Chan WrapperObject) :=
  s.mch

/-- The method `(*Subcription).close`. -/
def Subcription.close (s : Subcription) : ChanResult Subcription :=
  match chanClose s.mch with
  | .done c => .done { s with mch := some c }
  | .blocked => .blocked
  | .panicked msg => .panicked msg

/-! ## `client.go` -/

/-- The type `time.Duration`: a signed count of nanoseconds. -/
abbrev Duration := Int

/-- The constant `time.Second`. -/
def Second : Duration := 1000000000

/-- The constant `DefaultRequestTimeout`. -/
def DefaultRequestTimeout : Duration := 60 * Second

/-- The constant `DefaultConnectTimeout`. -/
def DefaultConnectTimeout : Duration := 60 * Second

/-- The library type `url.URL`, kept as the text it was parsed from. -/
structure URL where
  raw : String
deriving DecidableEq

/-- The library type `context.Context`, as far as the code looks at it. -/
structure Context where
  cancelled : Bool

/-- The library type `http.Request`. -/
structure Request where
  method : String
  url : String
  body : Bytes
deriving DecidableEq

/-- A reader such as `http.Response.Body`: the bytes it delivers, and the error
that ends the reading (`none` is a plain end of file). -/
structure Reader where
  data : Bytes
  err : Error

/-- The library type `http.Response`. -/
structure Response where
  statusCode : Nat
  body : Reader

/-- The library type `http.Client`, given by what its method `Do` answers. -/
structure HttpClient where
  Do : Request → Option Response × Error

/-- The library type `rate.Limiter`: its burst, whether its limit is `rate.Inf`,
and `reserve`, the rest of `WaitN` after the burst check (the context check and
the wait for a token). -/
structure Limiter where
  burst : Int
  limitInf : Bool
  reserve : Context → Error

/-- The library method `(*rate.Limiter).Wait`, which is `WaitN(ctx, 1)`: a
request larger than the burst of a limiter whose limit is finite is refused at
once. -/
def Limiter.Wait (lim : Limiter) (ctx : Context) : Error :=
  if 1 > lim.burst ∧ lim.limitInf = false then
    some ("rate: Wait(n=1) exceeds limiter's burst " ++ toString lim.burst)
  else
    lim.reserve ctx

/-- The empty struct `rate.Limiter{}`: no burst, limit zero. -/
def Limiter.empty : Limiter :=
  { burst := 0, limitInf := false, reserve := fun _ => none }

/-- The struct `pendingSubscription`. -/
structure pendingSubscription where
  Sid : Int
  Err : Error

/-- A wrapper such as `TrackablesAPI` or `ProvidersAPI`: its only field is the
pointer to the client; `bound` tells that it points to the client holding the
wrapper rather than being nil. -/
structure APIWrapper where
  bound : Bool
deriving DecidableEq

/-- The struct `Client`. The mutex is left out; `errg`, `cancel` and `conn` are
pointers into library state, `none` being nil; `subs` is a map, `none` being the
nil map; the elements of `pending` are channels of `pendingSubscription`. -/
structure Client where
  baseURL : Option URL
  client : Option HttpClient
  timeout : Duration
  rateLimiter : Option Limiter
  Trackables : APIWrapper
  Providers : APIWrapper
  errg : Option Unit
  cancel : Option Unit
  conn : Option Unit
  connectTimeout : Duration
  closed : Bool
  subs : Option (List (Int × Subcription))
  pending : Option (Chan (Chan pendingSubscription))

/-- The type `ClientOpt`, a `func(*Client) error` that may be nil. -/
abbrev ClientOpt := Option (Client → Client × Error)

/-- The function `WithHTTPClient`. -/
def WithHTTPClient (client : Option HttpClient) : ClientOpt :=
  some fun c => ({ c with client := client }, none)

/-- The function `WithRequestTimeout`. -/
def WithRequestTimeout (timeout : Duration) : ClientOpt :=
  some fun c =>
    if timeout < 0 then
      (c, some "request timeout must not be negative")
    else
      ({ c with timeout := timeout }, none)

/-- The function `WithConnectTimeout`. -/
def WithConnectTimeout (timeout : Duration) : ClientOpt :=
  some fun c =>
    if timeout < 0 then
      (c, some "request timeout must not be negative")
    else
      ({ c with connectTimeout := timeout }, none)

/-- The function `WithRateLimiter`. -/
def WithRateLimiter (limiter : Option Limiter) : ClientOpt :=
  some fun c => ({ c with rateLimiter := limiter }, none)

/-- The loop of `NewClient` over the options. -/
def NewClient.loop : List ClientOpt → Client → Client × Error
  | [], c => (c, none)
  | opt :: rest, c =>
    match opt with
    | none => NewClient.loop rest c
    | some f =>
      match f c with
      | (c', some err) => (c', some err)
      | (c', none) => NewClient.loop rest c'

/-- The client literal that `NewClient` starts from, with its two wrappers
already pointing back to it. -/
def NewClient.initial (hubURL : Option URL) : Client :=
  { baseURL := hubURL
    client := none
    timeout := DefaultRequestTimeout
    rateLimiter := none
    Trackables := { bound := true }
    Providers := { bound := true }
    errg := none
    cancel := none
    conn := none
    connectTimeout := DefaultConnectTimeout
    closed := true
    subs := some []
    pending := some (Chan.make 1) }

/-- The function `NewClient`: the pointer it returns (`none` is nil) and the
error. The library functions `url.Parse` and `DefaultHttpClient` (which wraps
`cleanhttp.DefaultPooledClient`) are parameters. -/
def NewClient (urlParse : String → Option URL × Error) (DefaultHttpClient : HttpClient)
    (baseURL : String) (opts : List ClientOpt) : Option Client × Error :=
  match urlParse baseURL with
  | (_, some err) => (none, some err)
  | (hubURL, none) =>
    match NewClient.loop opts (NewClient.initial hubURL) with
    | (_, some err) => (none, some err)
    | (c, none) =>
      if c.client.isNone then
        (some { c with client := some DefaultHttpClient }, none)
      else
        (some c, none)

/-- What `send` does to the outside, in order. -/
inductive Effect where
  | limiterWait (err : Error)
  | httpDo (req : Request)

/-- The method `(*Client).send`: what it does to the outside and what it
returns; `none` as the returned pair is the panic of calling `Do` through a nil
`c.client`. -/
def Client.send (c : Client) (ctx : Context) (req : Request) :
    List Effect × Option (Option Response × Error) :=
  let waited : List Effect :=
    match c.rateLimiter with
    | some lim => [Effect.limiterWait (lim.Wait ctx)]
    | none => []
  match c.client with
  | none => (waited, none)
  | some h => (waited ++ [Effect.httpDo req], some (h.Do req))

/-- The method `(*bytes.Buffer).ReadFrom` on an empty buffer: the buffer
afterwards and the error. -/
def Buffer.ReadFrom (r : Reader) : Bytes × Error :=
  (r.data, r.err)

/-- The function `parseResponse`. The library function `json.Unmarshal` on a
fresh variable of type `T` is the parameter `unmarshal`: the value it leaves in
the variable and its error. -/
def parseResponse {T : Type} (unmarshal : Bytes → T × Error) (responseBody : Reader) :
    Option T × Error :=
  match Buffer.ReadFrom responseBody with
  | (_, some err) => (none, some err)
  | (buf, none) =>
    if buf.length = 0 then
      (none, none)
    else
      match unmarshal buf with
      | (_, some err) => (none, some err)
      | (response, none) => (some response, none)

/-- The function `parseResponseList`, with `json.Unmarshal` on a fresh nil slice
as the parameter `unmarshal`. -/
def parseResponseList {T : Type} (unmarshal : Bytes → Slice T × Error)
    (responseBody : Reader) : Slice T × Error :=
  match Buffer.ReadFrom responseBody with
  | (_, some err) => (none, some err)
  | (buf, none) =>
    if buf.length = 0 then
      (none, none)
    else
      match unmarshal buf with
      | (_, some err) => (none, some err)
      | (response, none) => (response, none)

/-! ## The consumers of a subscription -/

/-- Where the goroutine started by `ReceiveAs` stands: at the head of
`for msg := range sub.mch`, inside `for _, payload := range msg.Payload` with
the payloads still to visit, or returned. -/
inductive Pc where
  | loopHead
  | inner (rest : List Bytes)
  | exited

/-- The running system that `ReceiveAs` sets up: the subscription whose buffer
the goroutine reads, the channel `out` it returns, and where the goroutine
stands. The goroutine is the only reader of the buffer and the consumer the only
reader of `out`, which is the single-reader discipline of the spec; the
envelopes in the buffer are the non-nil pointers that the dispatcher delivers.
Three history variables record what an observer sees: `outCloses`
counts the executions of `close(out)`, `got` lists what the consumer has
received from `out`, and `ended` tells that the consumer has seen `out` closed
and drained. -/
structure Projection (T : Type) where
  sub : Subcription
  out : Chan T
  pc : Pc
  outCloses : Nat
  got : List T
  ended : Bool

/-- The function `ReceiveAs`: it makes `out` and starts the goroutine. -/
def ReceiveAs {T : Type} (sub : Subcription) : Projection T :=
  { sub := sub
    out := Chan.make receiveChanSize
    pc := .loopHead
    outCloses := 0
    got := []
    ended := false }

/-- One step of the goroutine of `ReceiveAs`; `unmarshal` is `json.Unmarshal` on
the fresh variable `v`. A goroutine that has returned takes no step. -/
def Projection.worker {T : Type} (unmarshal : Bytes → T × Error) (p : Projection T) :
    ChanResult (Projection T) :=
  match p.pc with
  | .loopHead =>
    match chanRecv p.sub.mch with
    | .done (some msg, c) =>
      .done { p with sub := { p.sub with mch := some c }, pc := .inner msg.Payload }
    | .done (none, c) =>
      match chanClose (some p.out) with
      | .done o =>
        .done { p with sub := { p.sub with mch := some c }, out := o, pc := .exited,
                       outCloses := p.outCloses + 1 }
      | .blocked => .blocked
      | .panicked msg => .panicked msg
    | .blocked => .blocked
    | .panicked msg => .panicked msg
  | .inner [] => .done { p with pc := .loopHead }
  | .inner (payload :: rest) =>
    match unmarshal payload with
    | (_, some _) => .done { p with pc := .inner rest }
    | (v, none) =>
      match chanSend (some p.out) v with
      | .done o => .done { p with out := o, pc := .inner rest }
      | .blocked => .blocked
      | .panicked msg => .panicked msg
  | .exited => .blocked

/-- What can happen next around a typed projection: the dispatcher sends an
envelope into the buffer, or hands it to the goroutine parked at the loop head;
the subscription is closed; the goroutine takes a step; the consumer receives
from `out`. -/
inductive Action where
  | push (msg : WrapperObject)
  | handoff (msg : WrapperObject)
  | closeSub
  | worker
  | consume

/-- One step of the system around a typed projection. -/
def Projection.step {T : Type} (unmarshal : Bytes → T × Error) (p : Projection T) :
    Action → ChanResult (Projection T)
  | .push msg =>
    match chanSend p.sub.mch msg with
    | .done c => .done { p with sub := { p.sub with mch := some c } }
    | .blocked => .blocked
    | .panicked m => .panicked m
  | .handoff msg =>
    match p.pc with
    | .loopHead =>
      match chanHandoff p.sub.mch with
      | .done _ => .done { p with pc := .inner msg.Payload }
      | .blocked => .blocked
      | .panicked m => .panicked m
    | _ => .blocked
  | .closeSub =>
    match p.sub.close with
    | .done s => .done { p with sub := s }
    | .blocked => .blocked
    | .panicked m => .panicked m
  | .worker => p.worker unmarshal
  | .consume =>
    if p.ended then .blocked
    else
      match chanRecv (some p.out) with
      | .done (some v, o) => .done { p with out := o, got := p.got ++ [v] }
      | .done (none, o) => .done { p with out := o, ended := true }
      | .blocked => .blocked
      | .panicked m => .panicked m

/-- A schedule run from a state: it stops at the first step that cannot be
taken. -/
def Projection.run {T : Type} (unmarshal : Bytes → T × Error) :
    Projection T → List Action → ChanResult (Projection T)
  | p, [] => .done p
  | p, a :: rest =>
    match p.step unmarshal a with
    | .done q => Projection.run unmarshal q rest
    | .blocked => .blocked
    | .panicked m => .panicked m

/-- The envelopes a schedule delivers, in order. -/
def delivered : List Action → List WrapperObject
  | [] => []
  | .push msg :: rest => msg :: delivered rest
  | .handoff msg :: rest => msg :: delivered rest
  | _ :: rest => delivered rest

/-- The envelopes buffered in a channel variable. -/
def buffered {α : Type} : Option (Chan α) → List α
  | none => []
  | some c => c.buf

/-- The values that a list of payload fragments decodes to: the fragments that
decode, each as its value, in order. -/
def decodeAll {T : Type} (unmarshal : Bytes → T × Error) (payloads : List Bytes) : List T :=
  payloads.filterMap fun payload =>
    match unmarshal payload with
    | (v, none) => some v
    | (_, some _) => none

/-- The typed projection of a sequence of envelopes, in the words of the spec:
the payload fragments flattened in envelope order, then fragment order, keeping
the ones that decode. -/
def projectionOf {T : Type} (unmarshal : Bytes → T × Error) (msgs : List WrapperObject) :
    List T :=
  decodeAll unmarshal (msgs.map fun msg => msg.Payload).flatten

/-- The payloads the goroutine still has to visit in the envelope at hand. -/
def Pc.rest : Pc → List Bytes
  | .inner rest => rest
  | _ => []

/-- The schedule that takes the goroutine through a list of payloads, the
consumer receiving every value as soon as it is sent. -/
def payloadSchedule {T : Type} (unmarshal : Bytes → T × Error) : List Bytes → List Action
  | [] => [.worker]
  | payload :: rest =>
    match unmarshal payload with
    | (_, none) => .worker :: .consume :: payloadSchedule unmarshal rest
    | (_, some _) => .worker :: payloadSchedule unmarshal rest

/-- The schedule that delivers each envelope to the parked goroutine and lets it
work through the payloads. -/
def deliverSchedule {T : Type} (unmarshal : Bytes → T × Error) :
    List WrapperObject → List Action
  | [] => []
  | msg :: rest =>
    .handoff msg :: (payloadSchedule unmarshal msg.Payload ++ deliverSchedule unmarshal rest)

/-- The schedule for a finite sequence of envelopes followed by the closing of
the subscription: the goroutine then returns and the consumer sees the end. -/
def fullSchedule {T : Type} (unmarshal : Bytes → T × Error) (msgs : List WrapperObject) :
    List Action :=
  deliverSchedule unmarshal msgs ++ [.closeSub, .worker, .consume]

/-- A consumer of the raw buffer: the subscription, the envelopes the consumer
has read from `ReceiveRaw()`, and whether it has seen the buffer closed and
drained. It is the only reader of the buffer, which is the single-reader
discipline of the spec. -/
structure RawConsumer where
  sub : Subcription
  seen : List WrapperObject
  ended : Bool

/-- What can happen next around a raw consumer: an envelope is written into the
buffer, or handed to the parked consumer; the consumer reads; the subscription
is closed. -/
inductive RawAction where
  | write (msg : WrapperObject)
  | handoff (msg : WrapperObject)
  | read
  | close

/-- One step of the system around a raw consumer. -/
def RawConsumer.step (r : RawConsumer) : RawAction → ChanResult RawConsumer
  | .write msg =>
    match chanSend r.sub.mch msg with
    | .done c => .done { r with sub := { r.sub with mch := some c } }
    | .blocked => .blocked
    | .panicked m => .panicked m
  | .handoff msg =>
    if r.ended then .blocked
    else
      match chanHandoff r.sub.ReceiveRaw with
      | .done _ => .done { r with seen := r.seen ++ [msg] }
      | .blocked => .blocked
      | .panicked m => .panicked m
  | .read =>
    if r.ended then .blocked
    else
      match chanRecv r.sub.ReceiveRaw with
      | .done (some msg, c) =>
        .done { r with sub := { r.sub with mch := some c }, seen := r.seen ++ [msg] }
      | .done (none, c) => .done { r with sub := { r.sub with mch := some c }, ended := true }
      | .blocked => .blocked
      | .panicked m => .panicked m
  | .close =>
    match r.sub.close with
    | .done s => .done { r with sub := s }
    | .blocked => .blocked
    | .panicked m => .panicked m

/-- A schedule run from a state of the raw consumer. -/
def RawConsumer.run : RawConsumer → List RawAction → ChanResult RawConsumer
  | r, [] => .done r
  | r, a :: rest =>
    match r.step a with
    | .done q => RawConsumer.run q rest
    | .blocked => .blocked
    | .panicked m => .panicked m

/-- The envelopes a schedule writes into the buffer, in order. -/
def written : List RawAction → List WrapperObject
  | [] => []
  | .write msg :: rest => msg :: written rest
  | .handoff msg :: rest => msg :: written rest
  | _ :: rest => written rest

/-- The schedule that passes each envelope to the consumer as soon as it
arrives: through the buffer when the channel has one, by a direct hand-over to
the parked consumer when it is unbuffered. -/
def rawSchedule (cap : Nat) : List WrapperObject → List RawAction
  | [] => []
  | msg :: rest =>
    if cap = 0 then .handoff msg :: rawSchedule cap rest
    else .write msg :: .read :: rawSchedule cap rest

/-- The envelope of a push frame for the subscription identifier `sid` with one
payload. -/
def pushFrame (sid : Int) (payload : Bytes) : WrapperObject :=
  { SubscriptionID := sid, Payload := [payload] }

/-- Whether a channel variable holds a channel that has been closed. -/
def isClosed {α : Type} : Option (Chan α) → Bool
  | none => false
  | some c => c.closed

/-- Everything a typed projection has emitted or still has to emit from what
has been delivered: what the consumer has received, what is buffered in `out`,
what the payloads still to visit decode to, and the projection of the envelopes
still buffered in the subscription. -/
def Projection.content {T : Type} (unmarshal : Bytes → T × Error) (p : Projection T) : List T :=
  p.got ++ p.out.buf ++ decodeAll unmarshal p.pc.rest
    ++ projectionOf unmarshal (buffered p.sub.mch)

/-- The states a typed projection can be in: `out` is closed exactly when the
goroutine has returned, which it does once and only on a closed, drained
buffer; a consumer that has seen the end is on a closed, drained `out`; and
`out` has the capacity it was made with. -/
structure Projection.Good {T : Type} (p : Projection T) : Prop where
  closed_iff : p.out.closed = true ↔ p.pc = .exited
  closes : p.outCloses = if p.out.closed then 1 else 0
  exited : p.pc = .exited → isClosed p.sub.mch = true ∧ buffered p.sub.mch = []
  ended : p.ended = true → p.out.closed = true ∧ p.out.buf = []
  cap : p.out.cap = receiveChanSize

/-- The zero value `Client{}`, which an option can store through its pointer
with `*c = Client{}`: every pointer, map and channel is nil. -/
def Client.zero : Client :=
  { baseURL := none
    client := none
    timeout := 0
    rateLimiter := none
    Trackables := { bound := false }
    Providers := { bound := false }
    errg := none
    cancel := none
    conn := none
    connectTimeout := 0
    closed := false
    subs := none
    pending := none }

/-- A decoder to run the code with: the shape is a natural number, and a
payload decodes when it is a single decimal digit. -/
def digitUnmarshal (payload : Bytes) : Nat × Error :=
  match payload with
  | [d] =>
    if 48 ≤ d.toNat ∧ d.toNat ≤ 57 then (d.toNat - 48, none)
    else (0, some "invalid character looking for beginning of value")
  | _ => (0, some "cannot unmarshal into Go value of type uint")

/-! ## Reference definitions in the words of the spec -/

/-- Functions of the shape `func(*S) error` applied in list order: once one has
failed, its error stands and the later ones are not applied. -/
def appliedInOrder {S : Type} (fs : List (S → S × Error)) (s : S) : S × Error :=
  fs.foldl (fun acc f =>
    match acc.2 with
    | some _ => acc
    | none => f acc.1) (s, none)

/-! ## Theorems: `any_type.go` -/

/-- C10, as stated, fails: unmarshalling the empty byte sequence into a nil
`AnyType` leaves it nil, and marshalling then returns `null`, not the empty
sequence. -/
theorem anyType_roundTrip_empty_into_nil :
    AnyType.roundTrip none [] = (some nullLiteral, none, none) ∧
      (AnyType.roundTrip none []).1 ≠ some [] := by
  constructor
  · rfl
  · decide

/-- C10, amended: unmarshalling `data` into an `AnyType` and marshalling it
returns exactly `data` with no error whenever `data` is non-empty or the
`AnyType` held a non-nil slice before; the empty sequence unmarshalled into a
nil `AnyType` marshals to `null`; and a nil `AnyType` marshals to the four bytes
of `null`. -/
theorem anyType_roundTrip (a : AnyType) (data : Bytes) :
    (data ≠ [] ∨ a ≠ none → AnyType.roundTrip a data = (some data, none, none)) ∧
      AnyType.roundTrip none [] = (some nullLiteral, none, none) ∧
      AnyType.MarshalJSON none = (some [110, 117, 108, 108], none) := by
  refine ⟨?_, rfl, rfl⟩
  intro h
  cases data with
  | nil =>
    cases a with
    | none => simp at h
    | some xs => rfl
  | cons d ds =>
    cases a with
    | none => rfl
    | some xs => rfl

/-- The amended C10 at a concrete input: a fresh `AnyType` and the bytes of
`{"x":1}`. -/
theorem anyType_roundTrip_witness :
    AnyType.roundTrip none [123, 34, 120, 34, 58, 49, 125]
      = (some [123, 34, 120, 34, 58, 49, 125], none, none) :=
  (anyType_roundTrip none [123, 34, 120, 34, 58, 49, 125]).1 (Or.inl (by decide))

/-! ## Theorems: `client.go` -/

/-- C8: for a response body that is read without error, `parseResponse` returns
the nil value and no error exactly when the body is empty, and otherwise the
value decoded from the whole body or the decode error; `parseResponseList`
returns the nil (empty) list and no error when the body is empty, and otherwise
the decoded list or the decode error. -/
theorem parseResponse_spec {T U : Type} (unmarshal : Bytes → T × Error)
    (unmarshalList : Bytes → Slice U × Error) (body : Reader) (hread : body.err = none) :
    (parseResponse unmarshal body = (none, none) ↔ body.data = []) ∧
      (body.data ≠ [] →
        (∃ v, unmarshal body.data = (v, none) ∧
            parseResponse unmarshal body = (some v, none)) ∨
        (∃ v e, unmarshal body.data = (v, some e) ∧
            parseResponse unmarshal body = (none, some e))) ∧
      (body.data = [] →
        parseResponseList unmarshalList body = (none, none) ∧
          Slice.len (parseResponseList unmarshalList body).1 = 0) ∧
      (body.data ≠ [] →
        (∃ l, unmarshalList body.data = (l, none) ∧
            parseResponseList unmarshalList body = (l, none)) ∨
        (∃ l e, unmarshalList body.data = (l, some e) ∧
            parseResponseList unmarshalList body = (none, some e))) := by
  obtain ⟨data, err⟩ := body
  simp only at hread
  subst hread
  cases data with
  | nil =>
    simp [parseResponse, parseResponseList, Buffer.ReadFrom, Slice.len]
  | cons d ds =>
    simp only [parseResponse, parseResponseList, Buffer.ReadFrom, List.length_cons,
      Nat.add_one_ne_zero, if_false, ne_eq, not_false_eq_true, true_implies, reduceCtorEq,
      false_implies, iff_false, true_and]
    refine ⟨?_, ?_, ?_⟩
    · rcases h : unmarshal (d :: ds) with ⟨v, _ | e⟩ <;> simp
    · rcases h : unmarshal (d :: ds) with ⟨v, _ | e⟩ <;> simp
    · rcases h : unmarshalList (d :: ds) with ⟨l, _ | e⟩ <;> simp

/-- C8 at a concrete input: a body holding the digit 7, read without error and
decoded as a digit. -/
theorem parseResponse_spec_witness :
    (∃ v, digitUnmarshal [55] = (v, none) ∧
        parseResponse digitUnmarshal { data := [55], err := none } = (some v, none)) ∨
      (∃ v e, digitUnmarshal [55] = (v, some e) ∧
        parseResponse digitUnmarshal { data := [55], err := none } = (none, some e)) :=
  (parseResponse_spec (U := Nat) digitUnmarshal (fun _ => (none, none))
      { data := [55], err := none } rfl).2.1 (by simp)

/-- The loop of `NewClient` stops at the first option that fails, with its
error. -/
theorem newClient_loop_fails_at (pre post : List ClientOpt) (f : Client → Client × Error)
    (c mid : Client) (e : String) (hpre : NewClient.loop pre c = (mid, none))
    (hf : (f mid).2 = some e) :
    (NewClient.loop (pre ++ some f :: post) c).2 = some e := by
  induction pre generalizing c with
  | nil =>
    simp only [NewClient.loop] at hpre
    obtain rfl : c = mid := congrArg Prod.fst hpre
    rcases hfc : f c with ⟨c', _ | e'⟩
    · rw [hfc] at hf; simp at hf
    · rw [hfc] at hf
      simp only [List.nil_append, NewClient.loop, hfc]
      exact hf
  | cons o pre ih =>
    cases o with
    | none =>
      simp only [NewClient.loop] at hpre
      simpa only [List.cons_append, NewClient.loop] using ih c hpre
    | some g =>
      rcases hgc : g c with ⟨c', _ | e'⟩
      · simp only [NewClient.loop, hgc] at hpre
        simpa only [List.cons_append, NewClient.loop, hgc] using ih c' hpre
      · simp only [NewClient.loop, hgc] at hpre
        simp at hpre

/-- C6, as stated, fails in its last part: `NewClient` given a negative request
timeout returns another error when the base URL does not parse, and when an
earlier option fails with an error of its own. -/
theorem newClient_negative_timeout_other_error :
    NewClient (fun _ => (none, some "missing protocol scheme")) { Do := fun _ => (none, none) }
        ":" [WithRequestTimeout (-1)]
      = (none, some "missing protocol scheme") ∧
    NewClient (fun u => (some { raw := u }, none)) { Do := fun _ => (none, none) }
        "http://localhost:8081/v2" [some fun c => (c, some "boom"), WithRequestTimeout (-1)]
      = (none, some "boom") := by
  constructor <;> rfl

/-- C6, amended: `WithRequestTimeout d` and `WithConnectTimeout d` accept
exactly the non-negative durations. For `0 ≤ d` the option succeeds and sets the
request timeout (respectively the connect timeout) to `d`, changing no other
field; for `d < 0` it returns an error and leaves the client unchanged, and
`NewClient`, given a base URL that parses and such an option after options that
are nil or succeed, returns that error and no client. -/
theorem timeout_options_spec (d : Duration) :
    (∃ f g, WithRequestTimeout d = some f ∧ WithConnectTimeout d = some g ∧
      (0 ≤ d → ∀ c, f c = ({ c with timeout := d }, none) ∧
        g c = ({ c with connectTimeout := d }, none)) ∧
      (d < 0 → ∀ c, f c = (c, some "request timeout must not be negative") ∧
        g c = (c, some "request timeout must not be negative"))) ∧
    (d < 0 → ∀ (urlParse : String → Option URL × Error) (dflt : HttpClient) (baseURL : String)
        (hubURL : Option URL) (pre post : List ClientOpt) (mid : Client),
      urlParse baseURL = (hubURL, none) →
      NewClient.loop pre (NewClient.initial hubURL) = (mid, none) →
      NewClient urlParse dflt baseURL (pre ++ WithRequestTimeout d :: post)
          = (none, some "request timeout must not be negative") ∧
        NewClient urlParse dflt baseURL (pre ++ WithConnectTimeout d :: post)
          = (none, some "request timeout must not be negative")) := by
  constructor
  · refine ⟨_, _, rfl, rfl, ?_, ?_⟩
    · intro hd c
      have : ¬ d < 0 := not_lt.mpr hd
      simp [this]
    · intro hd c
      simp [hd]
  · intro hd urlParse dflt baseURL hubURL pre post mid hurl hpre
    have key : ∀ (f : Client → Client × Error),
        (f mid).2 = some "request timeout must not be negative" →
        NewClient urlParse dflt baseURL (pre ++ some f :: post)
          = (none, some "request timeout must not be negative") := by
      intro f hf
      have h := newClient_loop_fails_at pre post f _ mid _ hpre hf
      rcases hl : NewClient.loop (pre ++ some f :: post) (NewClient.initial hubURL)
        with ⟨c', _ | e'⟩
      · rw [hl] at h; simp at h
      · rw [hl] at h
        simp only [Option.some.injEq] at h
        subst h
        simp only [NewClient, hurl, hl]
    constructor
    · exact key _ (by simp [hd])
    · exact key _ (by simp [hd])

/-- The amended C6 at a concrete input: a timeout of minus one nanosecond after
a request timeout of five seconds. -/
theorem timeout_options_spec_witness :
    NewClient (fun u => (some { raw := u }, none)) { Do := fun _ => (none, none) }
        "http://localhost:8081/v2" ([WithRequestTimeout (5 * Second)] ++ WithRequestTimeout (-1) :: [])
      = (none, some "request timeout must not be negative") :=
  ((timeout_options_spec (-1)).2 (by decide) (fun u => (some { raw := u }, none))
    { Do := fun _ => (none, none) } "http://localhost:8081/v2"
    (some { raw := "http://localhost:8081/v2" }) [WithRequestTimeout (5 * Second)] []
    { NewClient.initial (some { raw := "http://localhost:8081/v2" }) with
      timeout := 5 * Second }
    rfl (by simp [NewClient.loop, WithRequestTimeout, Second])).1

/-- The loop of `NewClient` keeps the pending queue and the registry when every
option that succeeds keeps them. -/
theorem newClient_loop_keeps (opts : List ClientOpt) (c c' : Client)
    (hopts : ∀ o ∈ opts, ∀ f, o = some f → ∀ c0 c1, f c0 = (c1, none) →
      c1.pending = c0.pending ∧ c1.subs = c0.subs)
    (hloop : NewClient.loop opts c = (c', none)) :
    c'.pending = c.pending ∧ c'.subs = c.subs := by
  induction opts generalizing c with
  | nil =>
    simp only [NewClient.loop] at hloop
    obtain rfl : c = c' := congrArg Prod.fst hloop
    exact ⟨rfl, rfl⟩
  | cons o opts ih =>
    have hrest : ∀ o' ∈ opts, ∀ f, o' = some f → ∀ c0 c1, f c0 = (c1, none) →
        c1.pending = c0.pending ∧ c1.subs = c0.subs :=
      fun o' ho' => hopts o' (List.mem_cons_of_mem _ ho')
    cases o with
    | none =>
      simp only [NewClient.loop] at hloop
      exact ih c hrest hloop
    | some g =>
      rcases hgc : g c with ⟨c1, _ | e⟩
      · simp only [NewClient.loop, hgc] at hloop
        obtain ⟨h1, h2⟩ := ih c1 hrest hloop
        obtain ⟨k1, k2⟩ := hopts (some g) (List.mem_cons_self _ _) g rfl c c1 hgc
        exact ⟨h1.trans k1, h2.trans k2⟩
      · simp only [NewClient.loop, hgc] at hloop
        simp at hloop

/-- The four options of the package, and the nil option, keep the pending queue
and the registry. -/
theorem packageOptions_keep (client : Option HttpClient) (limiter : Option Limiter)
    (d : Duration) (o : ClientOpt)
    (ho : o ∈ [none, WithHTTPClient client, WithRequestTimeout d, WithConnectTimeout d,
      WithRateLimiter limiter]) :
    ∀ f, o = some f → ∀ c0 c1, f c0 = (c1, none) →
      c1.pending = c0.pending ∧ c1.subs = c0.subs := by
  intro f hf c0 c1 hc
  simp only [List.mem_cons, List.mem_singleton, List.not_mem_nil, or_false] at ho
  rcases ho with rfl | rfl | rfl | rfl | rfl
  · simp at hf
  · simp only [WithHTTPClient, Option.some.injEq] at hf
    subst hf
    simp only [Prod.mk.injEq, and_true] at hc
    subst hc
    exact ⟨rfl, rfl⟩
  · simp only [WithRequestTimeout, Option.some.injEq] at hf
    subst hf
    by_cases hd : d < 0
    · simp [hd] at hc
    · simp only [hd, if_false, Prod.mk.injEq, and_true] at hc
      subst hc
      exact ⟨rfl, rfl⟩
  · simp only [WithConnectTimeout, Option.some.injEq] at hf
    subst hf
    by_cases hd : d < 0
    · simp [hd] at hc
    · simp only [hd, if_false, Prod.mk.injEq, and_true] at hc
      subst hc
      exact ⟨rfl, rfl⟩
  · simp only [WithRateLimiter, Option.some.injEq] at hf
    subst hf
    simp only [Prod.mk.injEq, and_true] at hc
    subst hc
    exact ⟨rfl, rfl⟩

/-- C5, as stated, fails: an option is any function on the client, and one that
stores the zero value through its pointer succeeds; the client that `NewClient`
then returns has a nil pending queue and a nil registry. -/
theorem newClient_option_overwrites_pending :
    ∃ c, NewClient (fun u => (some { raw := u }, none)) { Do := fun _ => (none, none) }
        "http://localhost:8081/v2" [some fun _ => (Client.zero, none)] = (some c, none) ∧
      c.pending = none ∧ c.subs = none ∧
      c.pending ≠ some { buf := [], cap := 1, closed := false } ∧ c.subs ≠ some [] :=
  ⟨{ Client.zero with client := some { Do := fun _ => (none, none) } }, rfl, rfl, rfl,
    by simp [Client.zero], by simp [Client.zero]⟩

/-- C5, amended: every client returned by `NewClient`, for any base URL that
parses and any options that succeed and leave the pending queue and the
registry as they are (as the four options of the package and the nil option
do), has a pending-acknowledgement queue of capacity exactly one that holds no
entry and an empty subscription registry; so one subscribe request can be
enqueued, and a second one cannot until the first is taken out. A base URL that
parses and options that succeed, whatever they are, do yield a client. -/
theorem newClient_pending_single_slot (urlParse : String → Option URL × Error)
    (dflt : HttpClient) (baseURL : String) (opts : List ClientOpt) :
    ((∀ o ∈ opts, ∀ f, o = some f → ∀ c0 c1, f c0 = (c1, none) →
        c1.pending = c0.pending ∧ c1.subs = c0.subs) →
      ∀ c e, NewClient urlParse dflt baseURL opts = (some c, e) →
        c.pending = some { buf := [], cap := 1, closed := false } ∧
        c.subs = some [] ∧
        ∀ first second : Chan pendingSubscription,
          ∃ q, chanSend c.pending first = .done q ∧ q.buf = [first] ∧
            chanSend (some q) second = .blocked) ∧
    (∀ hubURL mid, urlParse baseURL = (hubURL, none) →
      NewClient.loop opts (NewClient.initial hubURL) = (mid, none) →
      ∃ c, NewClient urlParse dflt baseURL opts = (some c, none)) := by
  constructor
  · intro hopts c e hnew
    rcases hurl : urlParse baseURL with ⟨hubURL, _ | e1⟩
    · rcases hl : NewClient.loop opts (NewClient.initial hubURL) with ⟨mid, _ | e2⟩
      · obtain ⟨hp, hs⟩ := newClient_loop_keeps opts _ mid hopts hl
        have hc : c.pending = mid.pending ∧ c.subs = mid.subs := by
          simp only [NewClient, hurl, hl] at hnew
          split at hnew
          · simp only [Prod.mk.injEq, Option.some.injEq] at hnew
            obtain ⟨rfl, -⟩ := hnew
            exact ⟨rfl, rfl⟩
          · simp only [Prod.mk.injEq, Option.some.injEq] at hnew
            obtain ⟨rfl, -⟩ := hnew
            exact ⟨rfl, rfl⟩
        have hpend : c.pending = some { buf := [], cap := 1, closed := false } := by
          rw [hc.1, hp]; rfl
        refine ⟨hpend, ?_, ?_⟩
        · rw [hc.2, hs]; rfl
        · intro first second
          rw [hpend]
          exact ⟨{ buf := [first], cap := 1, closed := false }, rfl, rfl, rfl⟩
      · simp [NewClient, hurl, hl] at hnew
    · simp [NewClient, hurl] at hnew
  · intro hubURL mid hurl hl
    simp only [NewClient, hurl, hl]
    split
    · exact ⟨_, rfl⟩
    · exact ⟨_, rfl⟩

/-- The amended C5 at a concrete input: the client made with the four options of
the package and a nil option. -/
theorem newClient_pending_single_slot_witness :
    ∃ c, NewClient (fun u => (some { raw := u }, none)) { Do := fun _ => (none, none) }
        "http://localhost:8081/v2"
        [none, WithHTTPClient none, WithRequestTimeout 5, WithConnectTimeout 5,
          WithRateLimiter none] = (some c, none) ∧
      c.pending = some { buf := [], cap := 1, closed := false } ∧ c.subs = some [] := by
  have h := newClient_pending_single_slot (fun u => (some { raw := u }, none))
    { Do := fun _ => (none, none) } "http://localhost:8081/v2"
    [none, WithHTTPClient none, WithRequestTimeout 5, WithConnectTimeout 5,
      WithRateLimiter none]
  obtain ⟨c, hc⟩ := h.2 (some { raw := "http://localhost:8081/v2" })
    { NewClient.initial (some { raw := "http://localhost:8081/v2" }) with
      timeout := 5, connectTimeout := 5 } rfl
    (by simp [NewClient.loop, NewClient.initial, WithHTTPClient, WithRequestTimeout,
      WithConnectTimeout, WithRateLimiter])
  obtain ⟨hp, hs, -⟩ := h.1 (fun o ho => packageOptions_keep none none 5 o ho) c none hc
  exact ⟨c, hc, hp, hs⟩

/-- C7 fails on the code. `send` performs the request directly when the client
has no limiter, and invokes the wait of the limiter before the request when it
has one; but it drops what the wait returns, so with the empty `rate.Limiter`,
whose wait refuses every request, the request is performed all the same. -/
theorem send_ignores_limiter_refusal (c : Client) (h : HttpClient) (lim : Limiter)
    (ctx : Context) (req : Request) :
    Client.send { c with client := some h, rateLimiter := none } ctx req
      = ([.httpDo req], some (h.Do req)) ∧
    Client.send { c with client := some h, rateLimiter := some lim } ctx req
      = ([.limiterWait (lim.Wait ctx), .httpDo req], some (h.Do req)) ∧
    Limiter.empty.Wait ctx = some "rate: Wait(n=1) exceeds limiter's burst 0" ∧
    Client.send { c with client := some h, rateLimiter := some Limiter.empty } ctx req
      = ([.limiterWait (some "rate: Wait(n=1) exceeds limiter's burst 0"), .httpDo req],
          some (h.Do req)) := by
  have hw : Limiter.empty.Wait ctx = some "rate: Wait(n=1) exceeds limiter's burst 0" := by
    simp only [Limiter.Wait, Limiter.empty]
    decide
  refine ⟨rfl, rfl, hw, ?_⟩
  simp only [Client.send, hw, List.singleton_append]

/-! ## Theorems: `client_subscription.go` -/

/-- Once an error stands, applying further functions in order changes
nothing. -/
theorem appliedInOrder_foldl_failed {S : Type} (fs : List (S → S × Error)) (s : S)
    (e : String) :
    fs.foldl (fun acc f =>
      match acc.2 with
      | some _ => acc
      | none => f acc.1) (s, some e) = (s, some e) := by
  induction fs with
  | nil => rfl
  | cons f fs ih => simpa only [List.foldl_cons] using ih

/-- Applying in order, unfolded at the first function. -/
theorem appliedInOrder_cons {S : Type} (f : S → S × Error) (fs : List (S → S × Error))
    (s : S) :
    appliedInOrder (f :: fs) s =
      match f s with
      | (s', some e) => (s', some e)
      | (s', none) => appliedInOrder fs s' := by
  rcases h : f s with ⟨s', _ | e⟩
  · simp only [appliedInOrder, List.foldl_cons, h]
  · simp only [appliedInOrder, List.foldl_cons, h]
    exact appliedInOrder_foldl_failed fs s' e

/-- The loop of `NewSubscription` applies the non-nil options in order. -/
theorem newSubscription_loop_eq (opts : List SubcriptionOpt) (sub : Subcription) :
    NewSubscription.loop opts sub = appliedInOrder opts.reduceOption sub := by
  induction opts generalizing sub with
  | nil => rfl
  | cons o opts ih =>
    cases o with
    | none =>
      simp only [NewSubscription.loop, List.reduceOption_cons_of_none]
      exact ih sub
    | some f =>
      simp only [NewSubscription.loop, List.reduceOption_cons_of_some, appliedInOrder_cons]
      rcases h : f sub with ⟨s', _ | e⟩
      · simpa only using ih s'
      · rfl

/-- The loop of `WithSubcriptionParams` applies the parameters in order. -/
theorem withSubcriptionParams_loop_eq (topic : Topic) (params : List Parameter)
    (m : Parameters) :
    WithSubcriptionParams.loop topic params m
      = appliedInOrder (params.map fun param => param topic) m := by
  induction params generalizing m with
  | nil => rfl
  | cons param params ih =>
    simp only [WithSubcriptionParams.loop, List.map_cons, appliedInOrder_cons]
    rcases h : param topic m with ⟨m', _ | e⟩
    · simpa only using ih m'
    · rfl

/-- The loop of `NewSubscription` keeps the topic and the identifier when every
option that succeeds keeps them. -/
theorem newSubscription_loop_keeps (opts : List SubcriptionOpt) (s s' : Subcription)
    (hopts : ∀ o ∈ opts, ∀ f, o = some f → ∀ s0 s1, f s0 = (s1, none) →
      s1.topic = s0.topic ∧ s1.sid = s0.sid)
    (hloop : NewSubscription.loop opts s = (s', none)) :
    s'.topic = s.topic ∧ s'.sid = s.sid := by
  induction opts generalizing s with
  | nil =>
    simp only [NewSubscription.loop] at hloop
    obtain rfl : s = s' := congrArg Prod.fst hloop
    exact ⟨rfl, rfl⟩
  | cons o opts ih =>
    have hrest : ∀ o' ∈ opts, ∀ f, o' = some f → ∀ s0 s1, f s0 = (s1, none) →
        s1.topic = s0.topic ∧ s1.sid = s0.sid :=
      fun o' ho' => hopts o' (List.mem_cons_of_mem _ ho')
    cases o with
    | none =>
      simp only [NewSubscription.loop] at hloop
      exact ih s hrest hloop
    | some g =>
      rcases hgs : g s with ⟨s1, _ | e⟩
      · simp only [NewSubscription.loop, hgs] at hloop
        obtain ⟨h1, h2⟩ := ih s1 hrest hloop
        obtain ⟨k1, k2⟩ := hopts (some g) (List.mem_cons_self _ _) g rfl s s1 hgs
        exact ⟨h1.trans k1, h2.trans k2⟩
      · simp only [NewSubscription.loop, hgs] at hloop
        simp at hloop

/-- The loop of `NewSubscription` stops at the first option that fails, with its
error. -/
theorem newSubscription_loop_fails_at (pre post : List SubcriptionOpt)
    (f : Subcription → Subcription × Error) (s mid : Subcription) (e : String)
    (hpre : NewSubscription.loop pre s = (mid, none)) (hf : (f mid).2 = some e) :
    (NewSubscription.loop (pre ++ some f :: post) s).2 = some e := by
  induction pre generalizing s with
  | nil =>
    simp only [NewSubscription.loop] at hpre
    obtain rfl : s = mid := congrArg Prod.fst hpre
    rcases hfs : f s with ⟨s', _ | e'⟩
    · rw [hfs] at hf; simp at hf
    · rw [hfs] at hf
      simp only [List.nil_append, NewSubscription.loop, hfs]
      exact hf
  | cons o pre ih =>
    cases o with
    | none =>
      simp only [NewSubscription.loop] at hpre
      simpa only [List.cons_append, NewSubscription.loop] using ih s hpre
    | some g =>
      rcases hgs : g s with ⟨s', _ | e'⟩
      · simp only [NewSubscription.loop, hgs] at hpre
        simpa only [List.cons_append, NewSubscription.loop, hgs] using ih s' hpre
      · simp only [NewSubscription.loop, hgs] at hpre
        simp at hpre

/-- The option `WithSubcriptionParams` and the nil option keep the topic and the
identifier. -/
theorem subscriptionOptions_keep (params : List Parameter) (o : SubcriptionOpt)
    (ho : o ∈ [none, WithSubcriptionParams params]) :
    ∀ f, o = some f → ∀ s0 s1, f s0 = (s1, none) → s1.topic = s0.topic ∧ s1.sid = s0.sid := by
  intro f hf s0 s1 hs
  simp only [List.mem_cons, List.mem_singleton, List.not_mem_nil, or_false] at ho
  rcases ho with rfl | rfl
  · simp at hf
  · simp only [WithSubcriptionParams, Option.some.injEq] at hf
    subst hf
    simp only [Prod.mk.injEq] at hs
    obtain ⟨rfl, -⟩ := hs
    exact ⟨rfl, rfl⟩

/-- C9, as stated, fails: an option is any function on the subscription, and one
that overwrites it with another subscription succeeds; `NewSubscription` then
returns a subscription with that other topic and an identifier that is set. -/
theorem newSubscription_option_overwrites_topic :
    NewSubscription "location"
        [some fun _ => ({ sid := 7, topic := "fence_event", params := none, mch := none },
          none)]
      = (some { sid := 7, topic := "fence_event", params := none, mch := none }, none) ∧
    ¬ ((∃ sub, NewSubscription "location"
          [some fun _ => ({ sid := 7, topic := "fence_event", params := none, mch := none },
            none)] = (some sub, none) ∧ sub.topic = "location" ∧ sub.sid = 0) ∨
        (∃ err, NewSubscription "location"
          [some fun _ => ({ sid := 7, topic := "fence_event", params := none, mch := none },
            none)] = (none, some err))) := by
  have h : NewSubscription "location"
      [some fun _ => ({ sid := 7, topic := "fence_event", params := none, mch := none },
        none)]
      = (some { sid := 7, topic := "fence_event", params := none, mch := none }, none) := rfl
  refine ⟨h, ?_⟩
  rw [h]
  rintro (⟨sub, hsub, -, hsid⟩ | ⟨err, herr⟩)
  · simp only [Prod.mk.injEq, Option.some.injEq, and_true] at hsub
    subst hsub
    simp at hsid
  · simp at herr

/-- C9, amended: for every topic and option list, `NewSubscription` applies the
options in list order, skipping the nil ones; it either returns a subscription,
or returns an error and no subscription, the error being that of the first
option that fails. When the options that succeed leave the topic and the
identifier as they are (as `WithSubcriptionParams` and the nil option do), the
subscription returned has the given topic and the identifier unset (zero). With
`WithSubcriptionParams` the parameters of the subscription are exactly the given
parameters applied in order to an empty mapping for that topic. -/
theorem newSubscription_spec (topic : Topic) (opts : List SubcriptionOpt) :
    (NewSubscription topic opts =
      match appliedInOrder opts.reduceOption
          { sid := 0, topic := topic, params := none, mch := none } with
      | (_, some err) => (none, some err)
      | (sub, none) => (some sub, none)) ∧
    ((∃ sub, NewSubscription topic opts = (some sub, none)) ∨
      (∃ err, NewSubscription topic opts = (none, some err))) ∧
    ((∀ o ∈ opts, ∀ f, o = some f → ∀ s0 s1, f s0 = (s1, none) →
        s1.topic = s0.topic ∧ s1.sid = s0.sid) →
      ∀ sub e, NewSubscription topic opts = (some sub, e) →
        sub.topic = topic ∧ sub.sid = 0) ∧
    (∀ pre f post mid err, opts = pre ++ some f :: post →
      appliedInOrder pre.reduceOption
          { sid := 0, topic := topic, params := none, mch := none } = (mid, none) →
      (f mid).2 = some err →
      NewSubscription topic opts = (none, some err)) ∧
    (∀ (params : List Parameter) (m : Parameters),
      appliedInOrder (params.map fun param => param topic) [] = (m, none) →
      NewSubscription topic [WithSubcriptionParams params]
        = (some { sid := 0, topic := topic, params := some m, mch := none }, none)) ∧
    (∀ (params : List Parameter) (m : Parameters) (err : String),
      appliedInOrder (params.map fun param => param topic) [] = (m, some err) →
      NewSubscription topic [WithSubcriptionParams params] = (none, some err)) := by
  refine ⟨?_, ?_, ?_, ?_, ?_, ?_⟩
  · simp only [NewSubscription, newSubscription_loop_eq]
  · rcases hl : NewSubscription.loop opts
        { sid := 0, topic := topic, params := none, mch := none } with ⟨s', _ | e⟩
    · left
      exact ⟨s', by simp only [NewSubscription, hl]⟩
    · right
      exact ⟨e, by simp only [NewSubscription, hl]⟩
  · intro hopts sub e hnew
    rcases hl : NewSubscription.loop opts
        { sid := 0, topic := topic, params := none, mch := none } with ⟨s', _ | e'⟩
    · obtain ⟨ht, hs⟩ := newSubscription_loop_keeps opts _ s' hopts hl
      simp only [NewSubscription, hl, Prod.mk.injEq, Option.some.injEq] at hnew
      obtain ⟨rfl, -⟩ := hnew
      exact ⟨ht, hs⟩
    · simp [NewSubscription, hl] at hnew
  · intro pre f post mid err hsplit hpre hf
    subst hsplit
    rw [← newSubscription_loop_eq] at hpre
    have h := newSubscription_loop_fails_at pre post f _ mid err hpre hf
    rcases hl : NewSubscription.loop (pre ++ some f :: post)
        { sid := 0, topic := topic, params := none, mch := none } with ⟨s', _ | e⟩
    · rw [hl] at h; simp at h
    · rw [hl] at h
      simp only [Option.some.injEq] at h
      subst h
      simp only [NewSubscription, hl]
  · intro params m hm
    rw [← withSubcriptionParams_loop_eq] at hm
    simp only [NewSubscription, NewSubscription.loop, WithSubcriptionParams, hm]
  · intro params m err hm
    rw [← withSubcriptionParams_loop_eq] at hm
    simp only [NewSubscription, NewSubscription.loop, WithSubcriptionParams, hm]

/-- The amended C9 at a concrete input: the topic `location`, a nil option, and
two parameters that each add an entry to the mapping. -/
theorem newSubscription_spec_witness :
    ∃ sub, NewSubscription "location"
        [none, WithSubcriptionParams
          [fun _ m => (m ++ [("trackable_id", "abc")], none),
           fun _ m => (m ++ [("crs", "local")], none)]] = (some sub, none) ∧
      sub.params = some [("trackable_id", "abc"), ("crs", "local")] ∧
      sub.topic = "location" ∧ sub.sid = 0 :=
  ⟨{ sid := 0, topic := "location",
     params := some [("trackable_id", "abc"), ("crs", "local")], mch := none }, rfl, rfl,
    (newSubscription_spec "location"
      [none, WithSubcriptionParams
        [fun _ m => (m ++ [("trackable_id", "abc")], none),
         fun _ m => (m ++ [("crs", "local")], none)]]).2.2.1
      (fun o ho => subscriptionOptions_keep _ o ho) _ none rfl⟩

/-- C2, as stated, fails: on a subscription with an allocated buffer the first
`close()` succeeds and the second one panics. -/
theorem close_twice_panics :
    Subcription.close
        { sid := 7, topic := "location", params := none, mch := some (Chan.make 4) }
      = .done { sid := 7, topic := "location", params := none,
                mch := some { buf := [], cap := 4, closed := true } } ∧
    Subcription.close
        { sid := 7, topic := "location", params := none,
          mch := some { buf := [], cap := 4, closed := true } }
      = .panicked "close of closed channel" := by
  constructor <;> rfl

/-- C2, amended: `close()` is not idempotent. On a subscription whose buffer is
allocated and open, the first `close()` succeeds and closes the buffer, keeping
what is buffered and every other field; calling `close()` a second time does
not succeed: it panics with `close of closed channel`. -/
theorem close_once (s : Subcription) (c : Chan WrapperObject) (hmch : s.mch = some c)
    (hopen : c.closed = false) :
    s.close = .done { s with mch := some { c with closed := true } } ∧
      Subcription.close { s with mch := some { c with closed := true } }
        = .panicked "close of closed channel" := by
  constructor
  · simp [Subcription.close, chanClose, hmch, hopen]
  · simp [Subcription.close, chanClose]

/-- The amended C2 at a concrete input: a subscription whose buffer holds one
envelope. -/
theorem close_once_witness :
    Subcription.close
        { sid := 7, topic := "location", params := none,
          mch := some { buf := [{ SubscriptionID := 7, Payload := [[49]] }], cap := 4,
                        closed := false } }
      = .done { sid := 7, topic := "location", params := none,
                mch := some { buf := [{ SubscriptionID := 7, Payload := [[49]] }], cap := 4,
                              closed := true } } :=
  (close_once _ _ rfl rfl).1

/-- When a buffered send completes. -/
theorem chanSend_done {α : Type} (ch : Option (Chan α)) (v : α) (c' : Chan α)
    (h : chanSend ch v = .done c') :
    ∃ c, ch = some c ∧ c.closed = false ∧ c.buf.length < c.cap ∧
      c' = { c with buf := c.buf ++ [v] } := by
  cases ch with
  | none => simp [chanSend] at h
  | some c =>
    by_cases hc : c.closed = true
    · simp [chanSend, hc] at h
    · by_cases hl : c.buf.length < c.cap
      · unfold chanSend at h
        simp only [] at h
        rw [if_neg hc, if_pos hl] at h
        injection h with h
        exact ⟨c, rfl, by simpa using hc, hl, h.symm⟩
      · simp [chanSend, hc, hl] at h

/-- When a receive completes: with the oldest buffered value, or with the report
that the channel is closed and drained. -/
theorem chanRecv_done {α : Type} (ch : Option (Chan α)) (x : Option α) (c' : Chan α)
    (h : chanRecv ch = .done (x, c')) :
    ∃ c, ch = some c ∧
      ((∃ v rest, c.buf = v :: rest ∧ x = some v ∧ c' = { c with buf := rest }) ∨
        (c.buf = [] ∧ c.closed = true ∧ x = none ∧ c' = c)) := by
  cases ch with
  | none => simp [chanRecv] at h
  | some c =>
    obtain ⟨buf, cap, closed⟩ := c
    cases buf with
    | nil =>
      cases closed with
      | false => simp [chanRecv] at h
      | true =>
        simp only [chanRecv, if_true, ChanResult.done.injEq, Prod.mk.injEq] at h
        exact ⟨_, rfl, Or.inr ⟨rfl, rfl, h.1.symm, h.2.symm⟩⟩
    | cons v rest =>
      simp only [chanRecv, ChanResult.done.injEq, Prod.mk.injEq] at h
      exact ⟨_, rfl, Or.inl ⟨v, rest, rfl, h.1.symm, h.2.symm⟩⟩

/-- When a close completes. -/
theorem chanClose_done {α : Type} (ch : Option (Chan α)) (c' : Chan α)
    (h : chanClose ch = .done c') :
    ∃ c, ch = some c ∧ c.closed = false ∧ c' = { c with closed := true } := by
  cases ch with
  | none => simp [chanClose] at h
  | some c =>
    by_cases hc : c.closed = true
    · simp [chanClose, hc] at h
    · unfold chanClose at h
      simp only [] at h
      rw [if_neg hc] at h
      injection h with h
      exact ⟨c, rfl, by simpa using hc, h.symm⟩

/-- When a direct hand-over completes. -/
theorem chanHandoff_done {α : Type} (ch : Option (Chan α)) (u : Unit)
    (h : chanHandoff ch = .done u) :
    ∃ c, ch = some c ∧ c.closed = false ∧ c.buf = [] := by
  cases ch with
  | none => simp [chanHandoff] at h
  | some c =>
    by_cases hc : c.closed = true
    · simp [chanHandoff, hc] at h
    · by_cases he : c.buf.isEmpty = true
      · exact ⟨c, rfl, by simpa using hc, List.isEmpty_iff.mp he⟩
      · simp [chanHandoff, hc, he] at h

/-- When `close()` completes. -/
theorem subcription_close_done (s s' : Subcription) (h : s.close = .done s') :
    ∃ c, s.mch = some c ∧ c.closed = false ∧
      s' = { s with mch := some { c with closed := true } } := by
  rcases hc : chanClose s.mch with c' | _ | m
  · obtain ⟨c, h1, h2, rfl⟩ := chanClose_done _ _ hc
    simp only [Subcription.close, hc, ChanResult.done.injEq] at h
    exact ⟨c, h1, h2, h.symm⟩
  · simp [Subcription.close, hc] at h
  · simp [Subcription.close, hc] at h

/-- One step around a raw consumer keeps the order: what the consumer has seen,
followed by what is buffered, grows by exactly the envelope written; and a
consumer that has seen the end stays on a closed, drained buffer. -/
theorem rawConsumer_step_inv (r q : RawConsumer) (a : RawAction)
    (hstep : r.step a = .done q)
    (hend : r.ended = true → buffered r.sub.mch = [] ∧ isClosed r.sub.mch = true) :
    q.seen ++ buffered q.sub.mch = r.seen ++ buffered r.sub.mch ++ written [a] ∧
      (q.ended = true → buffered q.sub.mch = [] ∧ isClosed q.sub.mch = true) := by
  cases a with
  | write msg =>
    rcases hc : chanSend r.sub.mch msg with c' | _ | m
    · obtain ⟨c, h1, h2, -, rfl⟩ := chanSend_done _ _ _ hc
      simp only [RawConsumer.step, hc, ChanResult.done.injEq] at hstep
      subst hstep
      refine ⟨by simp [buffered, written, h1], ?_⟩
      intro he
      have := (hend he).2
      simp [isClosed, h1, h2] at this
    · simp [RawConsumer.step, hc] at hstep
    · simp [RawConsumer.step, hc] at hstep
  | handoff msg =>
    by_cases he : r.ended = true
    · simp [RawConsumer.step, he] at hstep
    · rcases hc : chanHandoff r.sub.ReceiveRaw with u | _ | m
      · obtain ⟨c, h1, -, h3⟩ := chanHandoff_done _ _ hc
        simp only [RawConsumer.step, he, hc, if_false, ChanResult.done.injEq,
          Bool.false_eq_true] at hstep
        subst hstep
        simp only [Subcription.ReceiveRaw] at h1
        exact ⟨by simp [buffered, written, h1, h3], fun h => by simp at h⟩
      · simp [RawConsumer.step, he, hc] at hstep
      · simp [RawConsumer.step, he, hc] at hstep
  | read =>
    by_cases he : r.ended = true
    · simp [RawConsumer.step, he] at hstep
    · rcases hc : chanRecv r.sub.ReceiveRaw with ⟨x, c'⟩ | _ | m
      · obtain ⟨c, h1, ⟨v, rest, h2, rfl, rfl⟩ | ⟨h2, h3, rfl, rfl⟩⟩ := chanRecv_done _ _ _ hc
        · simp only [RawConsumer.step, he, hc, if_false, ChanResult.done.injEq,
            Bool.false_eq_true] at hstep
          subst hstep
          simp only [Subcription.ReceiveRaw] at h1
          exact ⟨by simp [buffered, written, h1, h2], fun h => by simp at h⟩
        · simp only [RawConsumer.step, he, hc, if_false, ChanResult.done.injEq,
            Bool.false_eq_true] at hstep
          subst hstep
          simp only [Subcription.ReceiveRaw] at h1
          exact ⟨by simp [buffered, written, h1, h2], fun _ => by simp [buffered, isClosed, h2, h3]⟩
      · simp [RawConsumer.step, he, hc] at hstep
      · simp [RawConsumer.step, he, hc] at hstep
  | close =>
    rcases hc : r.sub.close with s' | _ | m
    · obtain ⟨c, h1, h2, rfl⟩ := subcription_close_done _ _ hc
      simp only [RawConsumer.step, hc, ChanResult.done.injEq] at hstep
      subst hstep
      refine ⟨by simp [buffered, written, h1], ?_⟩
      intro he
      have := (hend he).2
      simp [isClosed, h1, h2] at this
    · simp [RawConsumer.step, hc] at hstep
    · simp [RawConsumer.step, hc] at hstep

/-- The envelopes written by a schedule, split at its first action. -/
theorem written_cons (a : RawAction) (acts : List RawAction) :
    written (a :: acts) = written [a] ++ written acts := by
  cases a <;> simp [written]

/-- Every run around a raw consumer keeps the order of the envelopes. -/
theorem rawConsumer_run_inv (acts : List RawAction) (r0 r : RawConsumer)
    (hrun : RawConsumer.run r0 acts = .done r)
    (hend : r0.ended = true → buffered r0.sub.mch = [] ∧ isClosed r0.sub.mch = true) :
    r.seen ++ buffered r.sub.mch = r0.seen ++ buffered r0.sub.mch ++ written acts ∧
      (r.ended = true → buffered r.sub.mch = [] ∧ isClosed r.sub.mch = true) := by
  induction acts generalizing r0 with
  | nil =>
    simp only [RawConsumer.run, ChanResult.done.injEq] at hrun
    subst hrun
    exact ⟨by simp [written], hend⟩
  | cons a acts ih =>
    rcases hs : r0.step a with q | _ | m
    · simp only [RawConsumer.run, hs] at hrun
      obtain ⟨h1, h2⟩ := rawConsumer_step_inv r0 q a hs hend
      obtain ⟨k1, k2⟩ := ih q hrun h2
      refine ⟨?_, k2⟩
      rw [k1, h1, written_cons a acts]
      simp only [List.append_assoc]
    · simp [RawConsumer.run, hs] at hrun
    · simp [RawConsumer.run, hs] at hrun

/-- The schedule `rawSchedule` writes exactly the given envelopes. -/
theorem written_rawSchedule (cap : Nat) (msgs : List WrapperObject) :
    written (rawSchedule cap msgs) = msgs := by
  induction msgs with
  | nil => rfl
  | cons msg msgs ih =>
    by_cases hcap : cap = 0
    · simp [rawSchedule, hcap, written] at ih ⊢
      exact ih
    · simp [rawSchedule, hcap, written]
      exact ih

/-- On an open, empty buffer the schedule `rawSchedule` runs to its end, and the
consumer has then seen the envelopes in the order given. -/
theorem rawConsumer_run_rawSchedule (msgs : List WrapperObject) (s : Subcription)
    (c : Chan WrapperObject) (seen : List WrapperObject) (hmch : s.mch = some c)
    (hopen : c.closed = false) (hbuf : c.buf = []) :
    RawConsumer.run { sub := s, seen := seen, ended := false } (rawSchedule c.cap msgs)
      = .done { sub := s, seen := seen ++ msgs, ended := false } := by
  obtain ⟨sid, topic, params, mch⟩ := s
  obtain ⟨buf, cap, closed⟩ := c
  simp only at hmch hopen hbuf
  subst hmch hopen hbuf
  induction msgs generalizing seen with
  | nil => simp [rawSchedule, RawConsumer.run]
  | cons msg msgs ih =>
    by_cases hcap : cap = 0
    · subst hcap
      have := ih (seen ++ [msg])
      simp only [rawSchedule, if_true] at this ⊢
      simp only [RawConsumer.run, RawConsumer.step, Subcription.ReceiveRaw, chanHandoff,
        List.isEmpty_nil, if_true, if_false, Bool.false_eq_true]
      simpa only [List.append_assoc, List.singleton_append] using this
    · have hpos : 0 < cap := Nat.pos_of_ne_zero hcap
      have := ih (seen ++ [msg])
      simp only [rawSchedule, hcap, if_false] at this ⊢
      simp only [RawConsumer.run, RawConsumer.step, Subcription.ReceiveRaw, chanSend, chanRecv,
        List.length_nil, hpos, List.nil_append, if_true, if_false, Bool.false_eq_true]
      simpa only [List.append_assoc, List.singleton_append] using this

/-- C3: `ReceiveRaw()` is the buffer of the subscription itself. In every run
around a consumer of it, what the consumer has read, followed by what is still
buffered, is what the buffer held at first followed by the envelopes written,
un-decoded and in the order written; a consumer that has seen the end has read
all of them. And on an open, empty buffer any finite sequence of envelopes can
be written and is read in that very order. -/
theorem receiveRaw_fifo (s : Subcription) :
    s.ReceiveRaw = s.mch ∧
    (∀ acts r, RawConsumer.run { sub := s, seen := [], ended := false } acts = .done r →
      r.seen ++ buffered r.sub.ReceiveRaw = buffered s.mch ++ written acts ∧
      r.seen <+: buffered s.mch ++ written acts ∧
      (r.ended = true → r.seen = buffered s.mch ++ written acts)) ∧
    (∀ c msgs, s.mch = some c → c.closed = false → c.buf = [] →
      written (rawSchedule c.cap msgs) = msgs ∧
      ∃ r, RawConsumer.run { sub := s, seen := [], ended := false } (rawSchedule c.cap msgs)
          = .done r ∧ r.seen = msgs) := by
  refine ⟨rfl, ?_, ?_⟩
  · intro acts r hrun
    obtain ⟨h1, h2⟩ := rawConsumer_run_inv acts _ r hrun (by simp)
    simp only [List.nil_append] at h1
    refine ⟨h1, ⟨_, h1⟩, ?_⟩
    intro he
    have hb := (h2 he).1
    rw [hb, List.append_nil] at h1
    exact h1
  · intro c msgs hmch hopen hbuf
    refine ⟨written_rawSchedule _ _, _, rawConsumer_run_rawSchedule msgs s c [] hmch hopen hbuf, ?_⟩
    simp

/-- C3 at a concrete input: the subscription with identifier 7 on the topic
`location`, and three push frames with the payloads `{"x":1}`, `{"x":2}`,
`{"x":3}`: the raw consumer observes them in that order. -/
theorem receiveRaw_fifo_witness :
    ∃ r, RawConsumer.run
        { sub := { sid := 7, topic := "location", params := some [("trackableId", "abc")],
                   mch := some (Chan.make 8) },
          seen := [], ended := false }
        [.write (pushFrame 7 [123, 34, 120, 34, 58, 49, 125]), .read,
         .write (pushFrame 7 [123, 34, 120, 34, 58, 50, 125]), .read,
         .write (pushFrame 7 [123, 34, 120, 34, 58, 51, 125]), .read] = .done r ∧
      r.seen = [pushFrame 7 [123, 34, 120, 34, 58, 49, 125],
                pushFrame 7 [123, 34, 120, 34, 58, 50, 125],
                pushFrame 7 [123, 34, 120, 34, 58, 51, 125]] :=
  ((receiveRaw_fifo
      { sid := 7, topic := "location", params := some [("trackableId", "abc")],
        mch := some (Chan.make 8) }).2.2 (Chan.make 8)
      [pushFrame 7 [123, 34, 120, 34, 58, 49, 125],
       pushFrame 7 [123, 34, 120, 34, 58, 50, 125],
       pushFrame 7 [123, 34, 120, 34, 58, 51, 125]] rfl rfl rfl).2

/-- The projection of a sequence of envelopes, split at its first envelope. -/
theorem projectionOf_cons {T : Type} (unmarshal : Bytes → T × Error) (msg : WrapperObject)
    (msgs : List WrapperObject) :
    projectionOf unmarshal (msg :: msgs)
      = decodeAll unmarshal msg.Payload ++ projectionOf unmarshal msgs := by
  simp [projectionOf, decodeAll, List.filterMap_append]

/-- The projection of two sequences of envelopes in a row. -/
theorem projectionOf_append {T : Type} (unmarshal : Bytes → T × Error)
    (xs ys : List WrapperObject) :
    projectionOf unmarshal (xs ++ ys)
      = projectionOf unmarshal xs ++ projectionOf unmarshal ys := by
  simp [projectionOf, decodeAll, List.filterMap_append]

/-- The envelopes delivered by a schedule, split at its first action. -/
theorem delivered_cons (a : Action) (acts : List Action) :
    delivered (a :: acts) = delivered [a] ++ delivered acts := by
  cases a <;> simp [delivered]

/-- One step of the goroutine keeps the state good and neither loses nor
reorders anything. -/
theorem projection_worker_inv {T : Type} (unmarshal : Bytes → T × Error) (p q : Projection T)
    (hstep : p.worker unmarshal = .done q) (hgood : p.Good) :
    q.Good ∧ q.content unmarshal = p.content unmarshal := by
  obtain ⟨sub, out, pc, outCloses, got, ended⟩ := p
  obtain ⟨h1, h2, h3, h4, h5⟩ := hgood
  simp only at h1 h2 h3 h4 h5
  cases pc with
  | loopHead =>
    have hopen : out.closed = false := by
      cases ho : out.closed with
      | false => rfl
      | true => exact absurd (h1.mp ho) (by simp)
    rcases hc : chanRecv sub.mch with ⟨x, c'⟩ | _ | m
    · obtain ⟨c, hm, ⟨v, rest, hb, rfl, rfl⟩ | ⟨hb, hcl, rfl, rfl⟩⟩ := chanRecv_done _ _ _ hc
      · simp only [Projection.worker, hc, ChanResult.done.injEq] at hstep
        subst hstep
        refine ⟨⟨?_, ?_, ?_, ?_, h5⟩, ?_⟩
        · simp [hopen]
        · simpa using h2
        · simp
        · simpa using h4
        · simp [Projection.content, Pc.rest, buffered, hm, hb, projectionOf_cons, decodeAll]
      · simp only [Projection.worker, hc, chanClose, hopen, if_false, ChanResult.done.injEq,
          Bool.false_eq_true] at hstep
        subst hstep
        refine ⟨⟨?_, ?_, ?_, ?_, h5⟩, ?_⟩
        · simp
        · simp [h2, hopen]
        · simp [isClosed, buffered, hcl, hb]
        · intro he
          have := (h4 he).1
          simp [hopen] at this
        · simp [Projection.content, Pc.rest, buffered, hm, hb, decodeAll]
    · simp [Projection.worker, hc] at hstep
    · simp [Projection.worker, hc] at hstep
  | inner rest =>
    have hopen : out.closed = false := by
      cases ho : out.closed with
      | false => rfl
      | true => exact absurd (h1.mp ho) (by simp)
    cases rest with
    | nil =>
      simp only [Projection.worker, ChanResult.done.injEq] at hstep
      subst hstep
      refine ⟨⟨?_, ?_, ?_, ?_, h5⟩, ?_⟩
      · simp [hopen]
      · simpa using h2
      · simp
      · simpa using h4
      · simp [Projection.content, Pc.rest, decodeAll]
    | cons payload rest =>
      rcases hu : unmarshal payload with ⟨v, _ | e⟩
      · rcases hc : chanSend (some out) v with o | _ | m
        · obtain ⟨c, hm, -, -, rfl⟩ := chanSend_done _ _ _ hc
          simp only [Option.some.injEq] at hm
          subst hm
          simp only [Projection.worker, hu, hc, ChanResult.done.injEq] at hstep
          subst hstep
          refine ⟨⟨?_, ?_, ?_, ?_, h5⟩, ?_⟩
          · simp [hopen]
          · simpa using h2
          · simp
          · intro he
            have := (h4 he).1
            simp [hopen] at this
          · simp [Projection.content, Pc.rest, decodeAll, hu]
        · simp [Projection.worker, hu, hc] at hstep
        · simp [Projection.worker, hu, hc] at hstep
      · simp only [Projection.worker, hu, ChanResult.done.injEq] at hstep
        subst hstep
        refine ⟨⟨?_, ?_, ?_, ?_, h5⟩, ?_⟩
        · simp [hopen]
        · simpa using h2
        · simp
        · simpa using h4
        · simp [Projection.content, Pc.rest, decodeAll, hu]
  | exited => simp [Projection.worker] at hstep

/-- The projection of no envelope is empty. -/
theorem projectionOf_nil {T : Type} (unmarshal : Bytes → T × Error) :
    projectionOf unmarshal [] = [] := rfl

/-- One step of the system around a typed projection keeps the state good, and
the content grows by exactly the projection of the envelope delivered. -/
theorem projection_step_inv {T : Type} (unmarshal : Bytes → T × Error) (p q : Projection T)
    (a : Action) (hstep : p.step unmarshal a = .done q) (hgood : p.Good) :
    q.Good ∧
      q.content unmarshal = p.content unmarshal ++ projectionOf unmarshal (delivered [a]) := by
  cases a with
  | push msg =>
    rcases hc : chanSend p.sub.mch msg with c' | _ | m
    · obtain ⟨c, hm, hopen, -, rfl⟩ := chanSend_done _ _ _ hc
      simp only [Projection.step, hc, ChanResult.done.injEq] at hstep
      subst hstep
      obtain ⟨h1, h2, h3, h4, h5⟩ := hgood
      refine ⟨⟨h1, h2, ?_, h4, h5⟩, ?_⟩
      · intro he
        have := (h3 he).1
        simp [isClosed, hm, hopen] at this
      · simp [Projection.content, buffered, hm, delivered, projectionOf_append]
    · simp [Projection.step, hc] at hstep
    · simp [Projection.step, hc] at hstep
  | handoff msg =>
    obtain ⟨sub, out, pc, outCloses, got, ended⟩ := p
    obtain ⟨h1, h2, h3, h4, h5⟩ := hgood
    simp only at h1 h2 h3 h4 h5
    cases pc with
    | loopHead =>
      rcases hc : chanHandoff sub.mch with u | _ | m
      · obtain ⟨c, hm, -, hb⟩ := chanHandoff_done _ _ hc
        simp only [Projection.step, hc, ChanResult.done.injEq] at hstep
        subst hstep
        refine ⟨⟨?_, h2, ?_, h4, h5⟩, ?_⟩
        · simpa using h1
        · simp
        · simp [Projection.content, Pc.rest, buffered, hm, hb, delivered, projectionOf_cons,
            projectionOf_nil, decodeAll]
      · simp [Projection.step, hc] at hstep
      · simp [Projection.step, hc] at hstep
    | inner rest => simp [Projection.step] at hstep
    | exited => simp [Projection.step] at hstep
  | closeSub =>
    rcases hc : p.sub.close with s' | _ | m
    · obtain ⟨c, hm, hopen, rfl⟩ := subcription_close_done _ _ hc
      simp only [Projection.step, hc, ChanResult.done.injEq] at hstep
      subst hstep
      obtain ⟨h1, h2, h3, h4, h5⟩ := hgood
      refine ⟨⟨h1, h2, ?_, h4, h5⟩, ?_⟩
      · intro he
        have := (h3 he).1
        simp [isClosed, hm, hopen] at this
      · simp [Projection.content, buffered, hm, delivered, projectionOf_nil]
    · simp [Projection.step, hc] at hstep
    · simp [Projection.step, hc] at hstep
  | worker =>
    obtain ⟨h1, h2⟩ := projection_worker_inv unmarshal p q hstep hgood
    exact ⟨h1, by simp [h2, delivered, projectionOf_nil]⟩
  | consume =>
    by_cases he : p.ended = true
    · simp [Projection.step, he] at hstep
    · rcases hc : chanRecv (some p.out) with ⟨x, o⟩ | _ | m
      · obtain ⟨c, hm, ⟨v, rest, hb, rfl, rfl⟩ | ⟨hb, hcl, rfl, rfl⟩⟩ := chanRecv_done _ _ _ hc
        · simp only [Option.some.injEq] at hm
          subst hm
          simp only [Projection.step, he, hc, if_false, ChanResult.done.injEq,
            Bool.false_eq_true] at hstep
          subst hstep
          obtain ⟨h1, h2, h3, h4, h5⟩ := hgood
          refine ⟨⟨h1, h2, h3, ?_, h5⟩, ?_⟩
          · intro h
            simp at h
          · simp [Projection.content, hb, delivered, projectionOf_nil]
        · simp only [Option.some.injEq] at hm
          subst hm
          simp only [Projection.step, he, hc, if_false, ChanResult.done.injEq,
            Bool.false_eq_true] at hstep
          subst hstep
          obtain ⟨h1, h2, h3, h4, h5⟩ := hgood
          refine ⟨⟨h1, h2, h3, ?_, h5⟩, ?_⟩
          · intro _
            exact ⟨hcl, hb⟩
          · simp [Projection.content, delivered, projectionOf_nil]
      · simp [Projection.step, he, hc] at hstep
      · simp [Projection.step, he, hc] at hstep

/-- Every run around a typed projection keeps the state good, and the content
grows by exactly the projection of the envelopes delivered. -/
theorem projection_run_inv {T : Type} (unmarshal : Bytes → T × Error) (acts : List Action)
    (p q : Projection T) (hrun : Projection.run unmarshal p acts = .done q) (hgood : p.Good) :
    q.Good ∧
      q.content unmarshal = p.content unmarshal ++ projectionOf unmarshal (delivered acts) := by
  induction acts generalizing p with
  | nil =>
    simp only [Projection.run, ChanResult.done.injEq] at hrun
    subst hrun
    exact ⟨hgood, by simp [delivered, projectionOf_nil]⟩
  | cons a acts ih =>
    rcases hs : p.step unmarshal a with r | _ | m
    · simp only [Projection.run, hs] at hrun
      obtain ⟨h1, h2⟩ := projection_step_inv unmarshal p r a hs hgood
      obtain ⟨k1, k2⟩ := ih r hrun h1
      refine ⟨k1, ?_⟩
      rw [k2, h2, delivered_cons a acts, projectionOf_append]
      simp only [List.append_assoc]
    · simp [Projection.run, hs] at hrun
    · simp [Projection.run, hs] at hrun

/-- The system that `ReceiveAs` sets up starts in a good state, whose content is
the projection of what the buffer holds. -/
theorem ReceiveAs_good {T : Type} (unmarshal : Bytes → T × Error) (sub : Subcription) :
    (ReceiveAs sub : Projection T).Good ∧
      (ReceiveAs sub : Projection T).content unmarshal
        = projectionOf unmarshal (buffered sub.mch) := by
  refine ⟨⟨?_, ?_, ?_, ?_, rfl⟩, ?_⟩
  · simp [ReceiveAs, Chan.make]
  · simp [ReceiveAs, Chan.make]
  · simp [ReceiveAs]
  · simp [ReceiveAs]
  · simp [Projection.content, ReceiveAs, Chan.make, Pc.rest, decodeAll]

/-- A good state is never stuck: the goroutine can take a step, or the consumer
can receive, unless the goroutine is waiting at the loop head for the dispatcher
(nothing buffered, buffer not closed) or everything has ended. In particular a
payload that does not decode never stalls the goroutine. -/
theorem projection_progress {T : Type} (unmarshal : Bytes → T × Error) (p : Projection T)
    (hgood : p.Good) :
    (∃ q, p.step unmarshal .worker = .done q) ∨
      (∃ q, p.step unmarshal .consume = .done q) ∨
      (p.pc = .loopHead ∧ buffered p.sub.mch = [] ∧ isClosed p.sub.mch = false) ∨
      (p.pc = .exited ∧ p.ended = true) := by
  obtain ⟨⟨sid, topic, params, mch⟩, ⟨obuf, ocap, oclosed⟩, pc, outCloses, got, ended⟩ := p
  obtain ⟨h1, h2, h3, h4, h5⟩ := hgood
  simp only at h1 h2 h3 h4 h5
  cases pc with
  | loopHead =>
    have hopen : oclosed = false := by
      cases oclosed with
      | false => rfl
      | true => exact absurd (h1.mp rfl) (by simp)
    subst hopen
    cases mch with
    | none => exact Or.inr (Or.inr (Or.inl ⟨rfl, rfl, rfl⟩))
    | some c =>
      obtain ⟨buf, cap, closed⟩ := c
      cases buf with
      | nil =>
        cases closed with
        | false => exact Or.inr (Or.inr (Or.inl ⟨rfl, rfl, rfl⟩))
        | true =>
          left
          simp [Projection.step, Projection.worker, chanRecv, chanClose]
      | cons v rest =>
        left
        simp [Projection.step, Projection.worker, chanRecv]
  | inner rest =>
    have hopen : oclosed = false := by
      cases oclosed with
      | false => rfl
      | true => exact absurd (h1.mp rfl) (by simp)
    subst hopen
    cases rest with
    | nil =>
      left
      simp [Projection.step, Projection.worker]
    | cons payload rest =>
      rcases hu : unmarshal payload with ⟨v, _ | e⟩
      · by_cases hl : obuf.length < ocap
        · left
          simp [Projection.step, Projection.worker, hu, chanSend, hl]
        · right; left
          have hended : ended = false := by
            cases ended with
            | false => rfl
            | true => simpa using (h4 rfl).1
          subst hended
          cases obuf with
          | nil =>
            subst h5
            simp [receiveChanSize] at hl
          | cons w ws => simp [Projection.step, chanRecv]
      · left
        simp [Projection.step, Projection.worker, hu]
  | exited =>
    have hcl : oclosed = true := h1.mpr rfl
    subst hcl
    cases ended with
    | true => exact Or.inr (Or.inr (Or.inr ⟨rfl, rfl⟩))
    | false =>
      right; left
      cases obuf with
      | nil => simp [Projection.step, chanRecv]
      | cons w ws => simp [Projection.step, chanRecv]

/-- A run through two schedules in a row. -/
theorem projection_run_append {T : Type} (unmarshal : Bytes → T × Error) (xs ys : List Action)
    (p q : Projection T) (hxs : Projection.run unmarshal p xs = .done q) :
    Projection.run unmarshal p (xs ++ ys) = Projection.run unmarshal q ys := by
  induction xs generalizing p with
  | nil =>
    simp only [Projection.run, ChanResult.done.injEq] at hxs
    subst hxs
    rfl
  | cons a xs ih =>
    rcases hs : p.step unmarshal a with r | _ | m
    · simp only [Projection.run, hs] at hxs
      simp only [List.cons_append, Projection.run, hs]
      exact ih r hxs
    · simp [Projection.run, hs] at hxs
    · simp [Projection.run, hs] at hxs

/-- With `out` empty and the consumer receiving at once, the goroutine works
through the payloads of an envelope and is back at the loop head, the consumer
having received what they decode to. -/
theorem projection_run_payloadSchedule {T : Type} (unmarshal : Bytes → T × Error)
    (payloads : List Bytes) (sub : Subcription) (n : Nat) (got : List T) :
    Projection.run unmarshal
        { sub := sub, out := { buf := [], cap := receiveChanSize, closed := false },
          pc := .inner payloads, outCloses := n, got := got, ended := false }
        (payloadSchedule unmarshal payloads)
      = .done { sub := sub, out := { buf := [], cap := receiveChanSize, closed := false },
                pc := .loopHead, outCloses := n,
                got := got ++ decodeAll unmarshal payloads, ended := false } := by
  induction payloads generalizing got with
  | nil => simp [payloadSchedule, Projection.run, Projection.step, Projection.worker, decodeAll]
  | cons payload rest ih =>
    rcases hu : unmarshal payload with ⟨v, _ | e⟩
    · have := ih (got ++ [v])
      simp only [payloadSchedule, hu, Projection.run, Projection.step, Projection.worker,
        chanSend, chanRecv, receiveChanSize, List.length_nil, List.nil_append,
        Nat.zero_lt_succ, Nat.lt_add_one, if_true, if_false, Bool.false_eq_true,
        Nat.ofNat_pos] at this ⊢
      simpa [decodeAll, hu] using this
    · have := ih got
      simp only [payloadSchedule, hu, Projection.run, Projection.step, Projection.worker]
        at this ⊢
      simpa [decodeAll, hu] using this

/-- On an open, empty buffer, with `out` empty, each envelope can be handed to
the goroutine and worked through: the consumer has then received the projection
of the envelopes. -/
theorem projection_run_deliverSchedule {T : Type} (unmarshal : Bytes → T × Error)
    (msgs : List WrapperObject) (sub : Subcription) (c : Chan WrapperObject) (n : Nat)
    (got : List T) (hmch : sub.mch = some c) (hopen : c.closed = false) (hbuf : c.buf = []) :
    Projection.run unmarshal
        { sub := sub, out := { buf := [], cap := receiveChanSize, closed := false },
          pc := .loopHead, outCloses := n, got := got, ended := false }
        (deliverSchedule unmarshal msgs)
      = .done { sub := sub, out := { buf := [], cap := receiveChanSize, closed := false },
                pc := .loopHead, outCloses := n,
                got := got ++ projectionOf unmarshal msgs, ended := false } := by
  induction msgs generalizing got with
  | nil => simp [deliverSchedule, Projection.run, projectionOf_nil]
  | cons msg msgs ih =>
    have hh : chanHandoff sub.mch = .done () := by
      simp [chanHandoff, hmch, hopen, hbuf]
    simp only [deliverSchedule, Projection.run, Projection.step, hh]
    rw [projection_run_append unmarshal _ _ _ _
      (projection_run_payloadSchedule unmarshal msg.Payload sub n got)]
    rw [ih (got ++ decodeAll unmarshal msg.Payload), projectionOf_cons, List.append_assoc]

/-- A finite sequence of envelopes followed by the closing of the subscription:
the run of `fullSchedule` from the system that `ReceiveAs` sets up ends with the
goroutine returned, `out` closed once, and the consumer at the end of the
projection of the envelopes. -/
theorem projection_run_fullSchedule {T : Type} (unmarshal : Bytes → T × Error)
    (msgs : List WrapperObject) (sub : Subcription) (c : Chan WrapperObject)
    (hmch : sub.mch = some c) (hopen : c.closed = false) (hbuf : c.buf = []) :
    Projection.run unmarshal (ReceiveAs sub) (fullSchedule unmarshal msgs)
      = .done { sub := { sub with mch := some { c with closed := true } },
                out := { buf := [], cap := receiveChanSize, closed := true },
                pc := .exited, outCloses := 1,
                got := projectionOf unmarshal msgs, ended := true } := by
  have h := projection_run_deliverSchedule unmarshal msgs sub c 0 [] hmch hopen hbuf
  simp only [fullSchedule, ReceiveAs, Chan.make]
  rw [projection_run_append unmarshal _ _ _ _ h]
  simp [Projection.run, Projection.step, Projection.worker, Subcription.close, chanClose,
    chanRecv, hmch, hopen, hbuf]

/-- The envelopes delivered by two schedules in a row. -/
theorem delivered_append (xs ys : List Action) :
    delivered (xs ++ ys) = delivered xs ++ delivered ys := by
  induction xs with
  | nil => rfl
  | cons a xs ih =>
    rw [List.cons_append, delivered_cons, ih, delivered_cons a xs, List.append_assoc]

/-- The schedule through the payloads of an envelope delivers nothing. -/
theorem delivered_payloadSchedule {T : Type} (unmarshal : Bytes → T × Error)
    (payloads : List Bytes) : delivered (payloadSchedule unmarshal payloads) = [] := by
  induction payloads with
  | nil => rfl
  | cons payload rest ih =>
    rcases hu : unmarshal payload with ⟨v, _ | e⟩ <;> simp [payloadSchedule, hu, delivered, ih]

/-- The schedule `fullSchedule` delivers exactly the given envelopes. -/
theorem delivered_fullSchedule {T : Type} (unmarshal : Bytes → T × Error)
    (msgs : List WrapperObject) : delivered (fullSchedule unmarshal msgs) = msgs := by
  have h : delivered (deliverSchedule unmarshal msgs) = msgs := by
    induction msgs with
    | nil => rfl
    | cons msg msgs ih =>
      simp [deliverSchedule, delivered, delivered_append, delivered_payloadSchedule, ih]
  simp [fullSchedule, delivered_append, h, delivered]

/-- Payloads that all decode are decoded to their values, one for one. -/
theorem decodeAll_of_good {T : Type} (unmarshal : Bytes → T × Error) (payloads : List Bytes)
    (hgood : ∀ b ∈ payloads, (unmarshal b).2 = none) :
    decodeAll unmarshal payloads = payloads.map fun b => (unmarshal b).1 := by
  induction payloads with
  | nil => rfl
  | cons payload rest ih =>
    have h1 := hgood payload (List.mem_cons_self _ _)
    have h2 := ih fun b hb => hgood b (List.mem_cons_of_mem _ hb)
    rcases hu : unmarshal payload with ⟨v, _ | e⟩
    · simp only [decodeAll] at h2 ⊢
      simp [hu, h2]
    · simp [hu] at h1

/-- One malformed payload among well-formed ones is dropped, and the others are
decoded in their order. -/
theorem decodeAll_one_malformed {T : Type} (unmarshal : Bytes → T × Error)
    (good1 good2 : List Bytes) (bad : Bytes)
    (hgood : ∀ b ∈ good1 ++ good2, (unmarshal b).2 = none) (hbad : (unmarshal bad).2 ≠ none) :
    decodeAll unmarshal (good1 ++ bad :: good2)
      = (good1 ++ good2).map fun b => (unmarshal b).1 := by
  have h1 := decodeAll_of_good unmarshal good1
    fun b hb => hgood b (List.mem_append_left _ hb)
  have h2 := decodeAll_of_good unmarshal good2
    fun b hb => hgood b (List.mem_append_right _ hb)
  rcases hu : unmarshal bad with ⟨v, _ | e⟩
  · simp [hu] at hbad
  · simp only [decodeAll] at h1 h2 ⊢
    simp [List.filterMap_append, hu, h1, h2]

/-- C1: for every subscription, every target shape and every run of the system
that `ReceiveAs` sets up, what has been emitted and what is still to be emitted
make up the typed projection of the envelopes delivered to the buffer: the
payload fragments flattened in envelope order, then fragment order, keeping
exactly the ones that decode, each as its decoded value. What the consumer has
received is a prefix of it, and all of it once the consumer has seen the end;
and the run is never stuck on a fragment: the goroutine or the consumer can
step unless the goroutine waits for the dispatcher or all has ended.
Every finite sequence of envelopes followed by the closing of the subscription
is emitted to the end this way. In particular, with one malformed payload among
`N` well-formed ones the projection is the `N` decoded values in their order. -/
theorem receiveAs_projection {T : Type} (unmarshal : Bytes → T × Error) (sub : Subcription) :
    (∀ acts p, Projection.run unmarshal (ReceiveAs sub) acts = .done p →
      p.got ++ p.out.buf ++ decodeAll unmarshal p.pc.rest
          ++ projectionOf unmarshal (buffered p.sub.mch)
        = projectionOf unmarshal (buffered sub.mch ++ delivered acts) ∧
      p.got <+: projectionOf unmarshal (buffered sub.mch ++ delivered acts) ∧
      (p.ended = true →
        p.got = projectionOf unmarshal (buffered sub.mch ++ delivered acts)) ∧
      ((∃ q, p.step unmarshal .worker = .done q) ∨
        (∃ q, p.step unmarshal .consume = .done q) ∨
        (p.pc = .loopHead ∧ buffered p.sub.mch = [] ∧ isClosed p.sub.mch = false) ∨
        (p.pc = .exited ∧ p.ended = true))) ∧
    (∀ c msgs, sub.mch = some c → c.closed = false → c.buf = [] →
      delivered (fullSchedule unmarshal msgs) = msgs ∧
      ∃ p, Projection.run unmarshal (ReceiveAs sub) (fullSchedule unmarshal msgs) = .done p ∧
        p.ended = true ∧ p.got = projectionOf unmarshal msgs) ∧
    (∀ msgs good1 bad good2,
      (msgs.map fun msg => msg.Payload).flatten = good1 ++ bad :: good2 →
      (∀ b ∈ good1 ++ good2, (unmarshal b).2 = none) → (unmarshal bad).2 ≠ none →
      projectionOf unmarshal msgs = (good1 ++ good2).map (fun b => (unmarshal b).1) ∧
        (projectionOf unmarshal msgs).length = good1.length + good2.length) := by
  refine ⟨?_, ?_, ?_⟩
  · intro acts p hrun
    obtain ⟨hg0, hc0⟩ := ReceiveAs_good unmarshal sub
    obtain ⟨hg, hc⟩ := projection_run_inv unmarshal acts _ p hrun hg0
    rw [hc0, ← projectionOf_append] at hc
    simp only [Projection.content] at hc
    refine ⟨hc, ?_, ?_, projection_progress unmarshal p hg⟩
    · rw [← hc]
      simp only [List.append_assoc]
      exact List.prefix_append _ _
    · intro he
      obtain ⟨hcl, hb⟩ := hg.ended he
      obtain ⟨-, hm⟩ := hg.exited (hg.closed_iff.mp hcl)
      have hpc : p.pc.rest = [] := by rw [hg.closed_iff.mp hcl]; rfl
      rw [hb, hm, hpc] at hc
      simpa [decodeAll, projectionOf_nil] using hc
  · intro c msgs hmch hopen hbuf
    exact ⟨delivered_fullSchedule unmarshal msgs, _,
      projection_run_fullSchedule unmarshal msgs sub c hmch hopen hbuf, rfl, rfl⟩
  · intro msgs good1 bad good2 hflat hgood hbad
    have h := decodeAll_one_malformed unmarshal good1 good2 bad hgood hbad
    simp only [projectionOf, hflat]
    exact ⟨h, by rw [h]; simp⟩

/-- C1 at a concrete input: two envelopes with the payloads `1`, `x` and `2`,
decoded as digits; the consumer receives 1 and 2 and sees the end. -/
theorem receiveAs_projection_witness :
    ∃ p, Projection.run digitUnmarshal
        (ReceiveAs { sid := 7, topic := "location", params := none,
                     mch := some (Chan.make 8) })
        (fullSchedule digitUnmarshal
          [{ SubscriptionID := 7, Payload := [[49], [120]] },
           { SubscriptionID := 7, Payload := [[50]] }]) = .done p ∧
      p.ended = true ∧ p.got = [1, 2] :=
  ((receiveAs_projection digitUnmarshal
      { sid := 7, topic := "location", params := none, mch := some (Chan.make 8) }).2.1
    (Chan.make 8)
    [{ SubscriptionID := 7, Payload := [[49], [120]] },
     { SubscriptionID := 7, Payload := [[50]] }] rfl rfl rfl).2

/-- C4: the typed projection propagates termination. In every run of the system
that `ReceiveAs` sets up, `close(out)` has been executed at most once, `out` is
closed exactly when it has been executed, `out` is never closed while the
buffer of the subscription is still open, and once `out` is closed every
decodable fragment of the envelopes delivered has been emitted. And for every
finite sequence of envelopes followed by the closing of the subscription the
run ends with `out` closed, once, after the whole projection has been
received. -/
theorem receiveAs_termination {T : Type} (unmarshal : Bytes → T × Error) (sub : Subcription) :
    (∀ acts p, Projection.run unmarshal (ReceiveAs sub) acts = .done p →
      p.outCloses ≤ 1 ∧
      (p.out.closed = true ↔ p.outCloses = 1) ∧
      (p.out.closed = true → isClosed p.sub.mch = true) ∧
      (p.out.closed = true →
        p.got ++ p.out.buf = projectionOf unmarshal (buffered sub.mch ++ delivered acts))) ∧
    (∀ c msgs, sub.mch = some c → c.closed = false → c.buf = [] →
      ∃ p, Projection.run unmarshal (ReceiveAs sub) (fullSchedule unmarshal msgs) = .done p ∧
        p.out.closed = true ∧ p.outCloses = 1 ∧ isClosed p.sub.mch = true ∧
        p.out.buf = [] ∧ p.got = projectionOf unmarshal msgs) := by
  refine ⟨?_, ?_⟩
  · intro acts p hrun
    obtain ⟨hg0, hc0⟩ := ReceiveAs_good unmarshal sub
    obtain ⟨hg, hc⟩ := projection_run_inv unmarshal acts _ p hrun hg0
    rw [hc0, ← projectionOf_append] at hc
    simp only [Projection.content] at hc
    have hcl := hg.closes
    refine ⟨?_, ?_, ?_, ?_⟩
    · rw [hcl]; split <;> simp
    · rw [hcl]
      cases p.out.closed <;> simp
    · intro h
      exact (hg.exited (hg.closed_iff.mp h)).1
    · intro h
      obtain ⟨-, hm⟩ := hg.exited (hg.closed_iff.mp h)
      have hpc : p.pc.rest = [] := by rw [hg.closed_iff.mp h]; rfl
      rw [hm, hpc] at hc
      simpa [decodeAll, projectionOf_nil] using hc
  · intro c msgs hmch hopen hbuf
    exact ⟨_, projection_run_fullSchedule unmarshal msgs sub c hmch hopen hbuf, rfl, rfl, rfl,
      rfl, rfl⟩

/-- C4 at a concrete input: the same two envelopes; `out` is closed once, after
1 and 2 have been received. -/
theorem receiveAs_termination_witness :
    ∃ p, Projection.run digitUnmarshal
        (ReceiveAs { sid := 7, topic := "location", params := none,
                     mch := some (Chan.make 8) })
        (fullSchedule digitUnmarshal
          [{ SubscriptionID := 7, Payload := [[49], [120]] },
           { SubscriptionID := 7, Payload := [[50]] }]) = .done p ∧
      p.out.closed = true ∧ p.outCloses = 1 ∧ isClosed p.sub.mch = true ∧
      p.out.buf = [] ∧ p.got = [1, 2] :=
  (receiveAs_termination digitUnmarshal
      { sid := 7, topic := "location", params := none, mch := some (Chan.make 8) }).2
    (Chan.make 8)
    [{ SubscriptionID := 7, Payload := [[49], [120]] },
     { SubscriptionID := 7, Payload := [[50]] }] rfl rfl rfl

end Omlox
